import Mathlib

/-!
Verification development for the news-scrapper crawl pipeline
(`news_scrapper/{pipeline,fetcher,monitor,parser,planner}` and `main.py`).

The Python components are shallowly embedded as pure Lean functions:
dictionaries keyed by domain become association lists, wall-clock times and
crawl delays become rationals, network and library calls (requests,
urllib.robotparser, extruct, BeautifulSoup, crawl4ai) become oracle values
carried by the events/environments that drive each embedded function, and
Python truthiness of optional strings is made explicit.  Log emission and
calls into the Planner are recorded as trace values so that theorems can
speak about them.
-/

namespace NewsScrapper

/-! ### Association lists (embedding of Python dicts keyed by strings) -/

/-- Lookup in an association list, mirroring `dict.get(k)`. -/
def alGet {α : Type} : List (String × α) → String → Option α
  | [], _ => none
  | (k', v) :: rest, k => if k' = k then some v else alGet rest k

/-- Update/insert in an association list, mirroring `dict[k] = v`. -/
def alSet {α : Type} : List (String × α) → String → α → List (String × α)
  | [], k, v => [(k, v)]
  | (k', v') :: rest, k, v =>
      if k' = k then (k, v) :: rest else (k', v') :: alSet rest k v

theorem alGet_alSet_self {α : Type} (l : List (String × α)) (k : String) (v : α) :
    alGet (alSet l k v) k = some v := by
  induction l with
  | nil => simp [alGet, alSet]
  | cons p rest ih =>
      obtain ⟨k', v'⟩ := p
      by_cases h : k' = k <;> simp [alGet, alSet, h, ih]

theorem alGet_alSet_ne {α : Type} (l : List (String × α)) (k k' : String) (v : α)
    (h : k ≠ k') : alGet (alSet l k v) k' = alGet l k' := by
  induction l with
  | nil => simp [alGet, alSet, h]
  | cons p rest ih =>
      obtain ⟨k₀, v₀⟩ := p
      by_cases h0 : k₀ = k
      · subst h0
        simp [alGet, alSet, h]
      · simp only [alSet, if_neg h0]
        by_cases h1 : k₀ = k' <;> simp [alGet, h1, ih]

/-! ### Python truthiness of optional strings

`None` and the empty string are falsy; every other string is truthy.  This is
the test `if item_link: ...` performs on `.get(...)` results. -/

/-- Truthiness of a Python value that is either a string or `None`. -/
def truthy : Option String → Bool
  | none => false
  | some s => s != ""

/-! ### Pipeline (`news_scrapper/pipeline/pipeline.py`) -/

/-- A queue item: the `id`/`link` entries of the `item_data` dict that
`Pipeline.add_item` reads (`none` models a missing key). -/
structure PItem where
  itemId : Option String
  itemLink : Option String
  deriving DecidableEq

/-- The dedup key chosen by `Pipeline.add_item`:
`seen_key = item_link if item_link else item_id`, with the earlier guard that
an item carrying neither a truthy `link` nor a truthy `id` is skipped. -/
def seenKey (it : PItem) : Option String :=
  if truthy it.itemLink then it.itemLink
  else if truthy it.itemId then it.itemId
  else none

/-- An article dict as consumed by `Pipeline.store_result` (only the keys the
method reads: `link`, `url`, `id`). -/
structure StoredArticle where
  link : Option String
  url : Option String
  artId : Option String
  deriving DecidableEq

/-- `article_identifier = article_data.get('link') or article_data.get('url')
or article_data.get('id')`; `none` models the timestamp fallback. -/
def articleIdentifier (a : StoredArticle) : Option String :=
  if truthy a.link then a.link
  else if truthy a.url then a.url
  else if truthy a.artId then a.artId
  else none

/-- The Pipeline object state: `item_queue` (deque), `seen_item_ids` (set),
`processed_results_in_memory` (list), `max_results_in_memory`, and the set of
durable JSON records written so far (identifiers of the files). -/
structure PipelineState where
  itemQueue : List PItem
  seenItemIds : List String
  processedResultsInMemory : List StoredArticle
  maxResultsInMemory : Nat
  filesWritten : List (Option String)
  deriving DecidableEq

/-- The freshly initialized Pipeline with a given in-memory window bound. -/
def pipelineInit (maxResults : Nat) : PipelineState :=
  { itemQueue := [], seenItemIds := [], processedResultsInMemory := [],
    maxResultsInMemory := maxResults, filesWritten := [] }

/-- Which log entry `Pipeline.add_item` emitted for a call. -/
inductive AddLog
  | added
  | duplicateSkipped
  | missingIdAndLink
  deriving DecidableEq

/-- `Pipeline.add_item`: skip items with no truthy `link`/`id`; otherwise
compute the dedup key, and either enqueue (recording the key as seen) or
silently drop the duplicate with a log entry. -/
def addItem (st : PipelineState) (it : PItem) : PipelineState × AddLog :=
  match seenKey it with
  | none => (st, AddLog.missingIdAndLink)
  | some k =>
      if k ∈ st.seenItemIds then (st, AddLog.duplicateSkipped)
      else ({ st with itemQueue := st.itemQueue ++ [it],
                      seenItemIds := k :: st.seenItemIds }, AddLog.added)

/-- `Pipeline.get_next_item`: pop from the left of the deque. -/
def getNextItem (st : PipelineState) : Option PItem × PipelineState :=
  match st.itemQueue with
  | [] => (none, st)
  | it :: rest => (some it, { st with itemQueue := rest })

/-- `Pipeline.store_result`: write the durable JSON record and append the
article to the bounded in-memory list only while it is below the bound
(`writeOk` models whether the `json.dump` call succeeded; on an exception
neither the file nor the in-memory list is updated). -/
def storeResult (st : PipelineState) (a : StoredArticle) (writeOk : Bool) :
    PipelineState :=
  if writeOk then
    { st with
      filesWritten := st.filesWritten ++ [articleIdentifier a],
      processedResultsInMemory :=
        if st.processedResultsInMemory.length < st.maxResultsInMemory then
          st.processedResultsInMemory ++ [a]
        else st.processedResultsInMemory }
  else st

/-- One client call against the Pipeline's queue interface. -/
inductive PipeOp
  | add (it : PItem)
  | next
  deriving DecidableEq

/-- Run a sequence of `add_item`/`get_next_item` calls, collecting every item
returned by `get_next_item`. -/
def runPipe : PipelineState → List PipeOp → PipelineState × List PItem
  | st, [] => (st, [])
  | st, PipeOp.add it :: ops => runPipe (addItem st it).1 ops
  | st, PipeOp.next :: ops =>
      match getNextItem st with
      | (none, st') => runPipe st' ops
      | (some it, st') =>
          let r := runPipe st' ops
          (r.1, it :: r.2)

theorem runPipe_nodup_aux (ops : List PipeOp) :
    ∀ (st : PipelineState) (acc : List String),
      (acc ++ st.itemQueue.filterMap seenKey).Nodup →
      (∀ k ∈ acc ++ st.itemQueue.filterMap seenKey, k ∈ st.seenItemIds) →
      (acc ++ (runPipe st ops).2.filterMap seenKey).Nodup := by
  induction ops with
  | nil =>
      intro st acc h1 _
      simp only [runPipe, List.filterMap_nil, List.append_nil]
      exact (List.nodup_append.mp h1).1
  | cons op rest ih =>
      intro st acc h1 h2
      cases op with
      | add it =>
          simp only [runPipe]
          cases hk : seenKey it with
          | none => exact ih _ acc (by simpa [addItem, hk] using h1) (by simpa [addItem, hk] using h2)
          | some k =>
              by_cases hmem : k ∈ st.seenItemIds
              · exact ih _ acc (by simpa [addItem, hk, hmem] using h1)
                  (by simpa [addItem, hk, hmem] using h2)
              · refine ih _ acc ?_ ?_
                · simp only [addItem, hk, if_neg hmem, List.filterMap_append, ← List.append_assoc]
                  rw [List.nodup_append]
                  refine ⟨h1, by simp [hk], ?_⟩
                  intro x hx
                  simp only [List.filterMap_cons, hk, List.filterMap_nil,
                    List.mem_singleton]
                  intro hxk
                  exact hmem (hxk ▸ h2 x hx)
                · intro x hx
                  simp only [addItem, hk, if_neg hmem, List.filterMap_append] at hx ⊢
                  simp only [List.filterMap_cons, hk, List.filterMap_nil, List.append_assoc,
                    List.mem_append, List.mem_singleton] at hx
                  rcases hx with hx | hx | hx
                  · exact List.mem_cons_of_mem _ (h2 x (List.mem_append.mpr (Or.inl hx)))
                  · exact List.mem_cons_of_mem _ (h2 x (List.mem_append.mpr (Or.inr hx)))
                  · exact hx ▸ List.mem_cons_self _ _
      | next =>
          cases hq : st.itemQueue with
          | nil =>
              simp only [runPipe, getNextItem, hq]
              exact ih st acc (by simpa [hq] using h1) (by simpa [hq] using h2)
          | cons it restQ =>
              simp only [runPipe, getNextItem, hq]
              have h1' := h1
              have h2' := h2
              rw [hq] at h1' h2'
              cases hsk : seenKey it with
              | none =>
                  rw [List.filterMap_cons, hsk] at h1' h2'
                  have := ih { st with itemQueue := restQ } acc h1' h2'
                  simpa [List.filterMap_cons, hsk] using this
              | some k =>
                  rw [List.filterMap_cons, hsk] at h1' h2'
                  have hn : ((acc ++ [k]) ++ List.filterMap seenKey restQ).Nodup := by
                    simpa [List.append_assoc] using h1'
                  have hm : ∀ x ∈ (acc ++ [k]) ++ List.filterMap seenKey restQ,
                      x ∈ st.seenItemIds := by
                    intro x hx
                    refine h2' x ?_
                    simpa [List.append_assoc] using hx
                  have := ih { st with itemQueue := restQ } (acc ++ [k]) hn hm
                  simpa [List.filterMap_cons, hsk, List.append_assoc] using this

/-- C1 For every sequence of `Pipeline.add_item` calls, an item whose dedup
key (its `link` if truthy, else its `id`) has already been seen in this run
is silently dropped (the state is unchanged and only a log entry results),
and no two items returned by `get_next_item` over the whole run share the
same dedup key. -/
theorem pipeline_dedup_invariant :
    (∀ (maxR : Nat) (ops : List PipeOp),
        ((runPipe (pipelineInit maxR) ops).2.filterMap seenKey).Nodup)
    ∧ (∀ (st : PipelineState) (it : PItem) (k : String),
        seenKey it = some k → k ∈ st.seenItemIds →
        addItem st it = (st, AddLog.duplicateSkipped)) := by
  constructor
  · intro maxR ops
    have := runPipe_nodup_aux ops (pipelineInit maxR) []
    simp only [pipelineInit, List.nil_append, List.filterMap_nil] at this
    exact this (by simp) (by simp)
  · intro st it k hk hmem
    simp [addItem, hk, hmem]

/-- C1 witness: a concrete run in which a duplicate-keyed item is dropped and
the dequeued items carry distinct keys. -/
theorem pipeline_dedup_invariant_witness :
    ((runPipe (pipelineInit 10)
        [PipeOp.add ⟨some "i1", some "http://e.com/a"⟩,
         PipeOp.add ⟨some "i2", some "http://e.com/a"⟩,
         PipeOp.add ⟨some "i3", none⟩,
         PipeOp.next, PipeOp.next, PipeOp.next]).2.filterMap seenKey).Nodup
    ∧ addItem
        { itemQueue := [], seenItemIds := ["http://e.com/a"],
          processedResultsInMemory := [], maxResultsInMemory := 5, filesWritten := [] }
        ⟨some "i9", some "http://e.com/a"⟩
      = ({ itemQueue := [], seenItemIds := ["http://e.com/a"],
           processedResultsInMemory := [], maxResultsInMemory := 5, filesWritten := [] },
         AddLog.duplicateSkipped) :=
  ⟨pipeline_dedup_invariant.1 10 _,
   pipeline_dedup_invariant.2 _ ⟨some "i9", some "http://e.com/a"⟩ "http://e.com/a"
     (by decide) (by decide)⟩

/-- C10 counterexample: with a window bound of 1, storing a second result
leaves the window holding the OLDEST result; the new result never enters the
window and nothing is evicted, contradicting the claimed
evict-oldest-to-make-room behavior (while both durable records are written). -/
theorem store_result_no_eviction_counterexample :
    ((storeResult (storeResult (pipelineInit 1)
        ⟨some "http://e.com/1", none, none⟩ true)
        ⟨some "http://e.com/2", none, none⟩ true).processedResultsInMemory
      = [⟨some "http://e.com/1", none, none⟩])
    ∧ (⟨some "http://e.com/2", none, none⟩ : StoredArticle) ∉
        (storeResult (storeResult (pipelineInit 1)
          ⟨some "http://e.com/1", none, none⟩ true)
          ⟨some "http://e.com/2", none, none⟩ true).processedResultsInMemory
    ∧ (storeResult (storeResult (pipelineInit 1)
        ⟨some "http://e.com/1", none, none⟩ true)
        ⟨some "http://e.com/2", none, none⟩ true).filesWritten
      = [some "http://e.com/1", some "http://e.com/2"] := by
  refine ⟨by decide, by decide, by decide⟩

/-- C10 amended: `store_result` keeps the in-memory window bounded by never
removing entries and appending a stored result only while the window holds
fewer than `max_results_in_memory` entries; once the window is full the NEW
result is silently not added (the window keeps the oldest results), while the
durable record is written regardless of the window's state. -/
theorem store_result_window_amended (st : PipelineState) (a : StoredArticle) (ok : Bool) :
    st.processedResultsInMemory <+: (storeResult st a ok).processedResultsInMemory
    ∧ (st.processedResultsInMemory.length ≤ st.maxResultsInMemory →
        (storeResult st a ok).processedResultsInMemory.length ≤ st.maxResultsInMemory)
    ∧ (st.processedResultsInMemory.length < st.maxResultsInMemory →
        (storeResult st a true).processedResultsInMemory
          = st.processedResultsInMemory ++ [a])
    ∧ (¬ st.processedResultsInMemory.length < st.maxResultsInMemory →
        (storeResult st a true).processedResultsInMemory = st.processedResultsInMemory)
    ∧ (storeResult st a true).filesWritten = st.filesWritten ++ [articleIdentifier a] := by
  refine ⟨?_, ?_, ?_, ?_, ?_⟩
  · by_cases hok : ok = true
    · subst hok
      simp only [storeResult, if_pos rfl]
      by_cases hlen : st.processedResultsInMemory.length < st.maxResultsInMemory
      · simp [hlen]
      · simp [hlen]
    · simp [storeResult, Bool.eq_false_iff.mpr hok, eq_false_of_ne_true hok]
  · intro hle
    by_cases hok : ok = true
    · subst hok
      by_cases hlen : st.processedResultsInMemory.length < st.maxResultsInMemory
      · have heq : (storeResult st a true).processedResultsInMemory
            = st.processedResultsInMemory ++ [a] := by simp [storeResult, hlen]
        rw [heq, List.length_append]
        simp only [List.length_singleton]
        omega
    -- full window: unchanged
      · simpa [storeResult, hlen] using hle
    · simpa [storeResult, eq_false_of_ne_true hok] using hle
  · intro hlen
    simp [storeResult, hlen]
  · intro hlen
    simp [storeResult, hlen]
  · simp [storeResult]

/-- C10 amended witness at a concrete full window. -/
theorem store_result_window_amended_witness :
    (let st : PipelineState :=
      { itemQueue := [], seenItemIds := [],
        processedResultsInMemory := [⟨some "http://e.com/1", none, none⟩],
        maxResultsInMemory := 1, filesWritten := [some "http://e.com/1"] };
     let a : StoredArticle := ⟨some "http://e.com/2", none, none⟩;
     st.processedResultsInMemory <+: (storeResult st a true).processedResultsInMemory
     ∧ (storeResult st a true).processedResultsInMemory = st.processedResultsInMemory
     ∧ (storeResult st a true).filesWritten = st.filesWritten ++ [articleIdentifier a]) := by
  refine ⟨(store_result_window_amended _ _ true).1,
    (store_result_window_amended _ _ true).2.2.2.1 (by decide),
    (store_result_window_amended _ _ true).2.2.2.2⟩

/-! ### Monitor (`news_scrapper/monitor/monitor.py`) -/

/-- The block/CAPTCHA keywords scanned by `Monitor.is_rate_limited`. -/
def blockKeywords : List String :=
  ["captcha", "are you a robot", "access denied", "verify you are human",
   "to continue please", "too many requests"]

/-- Whether the first list of characters begins the second one. -/
def startsWithChars : List Char → List Char → Bool
  | [], _ => true
  | _ :: _, [] => false
  | a :: pa, b :: pb => a == b && startsWithChars pa pb

/-- Whether the first list of characters occurs inside the second one
(the Python `in` test on strings). -/
def containsChars (pat : List Char) : List Char → Bool
  | [] => startsWithChars pat []
  | c :: rest => startsWithChars pat (c :: rest) || containsChars pat rest

/-- Python `keyword in snippet.lower()` (per-character lowercasing). -/
def keywordInLower (snippet kw : String) : Bool :=
  containsChars kw.data (snippet.data.map Char.toLower)

/-- The detection part of `Monitor.is_rate_limited`: HTTP status 429/503 is a
positive; otherwise a truthy snippet is scanned for block keywords. -/
def detectLimited (status : Option Nat) (snippet : String) : Bool :=
  if status = some 429 ∨ status = some 503 then true
  else if snippet != "" then blockKeywords.any (fun kw => keywordInLower snippet kw)
  else false

/-- `Monitor.is_rate_limited`'s domain extraction specialized to the bare
domain strings the Fetcher passes: `urlparse` on a scheme-less string yields
an empty `netloc`, so the code falls back to treating any dotted string as
the domain to penalize. -/
def domainToPenalize (source : String) : Option String :=
  if '.' ∈ source.data then some source else none

/-- Python's binary `min`, kept as an explicit conditional so that it
evaluates by kernel reduction. -/
def ratMin (a b : ℚ) : ℚ := if a ≤ b then a else b

/-- The delay update of `Monitor.is_rate_limited`: double, capped at 300;
if doubling left the (already >1) delay unchanged, add 60 (capped) instead. -/
def penalizeDelay (current : ℚ) : ℚ :=
  let newDelay := ratMin (current * 2) 300
  if newDelay = current ∧ 1 < current then ratMin (current + 60) 300 else newDelay

/-- `Monitor.is_rate_limited` for a wired-up Monitor (its `planner_reference`
holding the shared `crawl_delays_cache`): returns the detection verdict and
the updated crawl-delay cache. -/
def isRateLimited (delays : List (String × ℚ)) (source : String)
    (status : Option Nat) (snippet : String) : Bool × List (String × ℚ) :=
  if detectLimited status snippet then
    match domainToPenalize source with
    | some dom =>
        (true, alSet delays dom (penalizeDelay ((alGet delays dom).getD 1)))
    | none => (true, delays)
  else (false, delays)

/-- C3 counterexample: with a cached crawl delay of 0 (as left by a robots
`Crawl-delay: 0`), a positive 429 detection leaves the cached delay at 0 —
it does not strictly increase and 0 is not the 300 ceiling. -/
theorem monitor_backoff_zero_counterexample :
    isRateLimited [("example.com", 0)] "example.com" (some 429) ""
      = (true, [("example.com", 0)])
    ∧ ¬ ((0 : ℚ) < 0) ∧ (0 : ℚ) ≠ 300 := by
  refine ⟨?_, by norm_num, by norm_num⟩
  have hdet : detectLimited (some 429) "" = true := by decide
  simp only [isRateLimited, hdet, if_true, domainToPenalize]
  norm_num [alGet, alSet, penalizeDelay, ratMin]

/-- C3 amended: on detection the cached delay `d` (default 1 when absent) is
set to `min (2*d) 300` — the additive branch fires only at `d = 300`, where
it also yields 300 — so for `0 < d < 300` the cached delay strictly
increases, it never exceeds the 300 ceiling, and a clean response (no
detection) leaves the cache unchanged; at `d = 0` detection leaves 0. -/
theorem monitor_backoff_amended :
    (∀ d : ℚ, 0 ≤ d → penalizeDelay d = min (d * 2) 300)
    ∧ (∀ d : ℚ, 0 < d → d < 300 → d < penalizeDelay d)
    ∧ (∀ d : ℚ, 0 ≤ d → penalizeDelay d ≤ 300)
    ∧ penalizeDelay 0 = 0
    ∧ (∀ delays dom status snippet,
        detectLimited status snippet = true → '.' ∈ dom.data →
        isRateLimited delays dom status snippet
          = (true, alSet delays dom (penalizeDelay ((alGet delays dom).getD 1))))
    ∧ (∀ delays source status snippet,
        detectLimited status snippet = false →
        isRateLimited delays source status snippet = (false, delays)) := by
  have hmin : ∀ a b : ℚ, ratMin a b = min a b := fun a b => (min_def a b).symm
  have hEq : ∀ d : ℚ, 0 ≤ d → penalizeDelay d = min (d * 2) 300 := by
    intro d hd
    unfold penalizeDelay
    simp only [hmin]
    split_ifs with h
    · obtain ⟨h1, h2⟩ := h
      have hd300 : d = 300 := by
        rcases le_or_lt (d * 2) 300 with hle | hlt
        · rw [min_eq_left hle] at h1
          linarith
        · rw [min_eq_right hlt.le] at h1
          linarith
      subst hd300
      norm_num
    · rfl
  refine ⟨hEq, ?_, ?_, by norm_num [penalizeDelay, ratMin], ?_, ?_⟩
  · intro d h0 h300
    rw [hEq d h0.le]
    exact lt_min (by linarith) h300
  · intro d h0
    rw [hEq d h0]
    exact min_le_right _ _
  · intro delays dom status snippet hdet hdot
    simp [isRateLimited, hdet, domainToPenalize, hdot]
  · intro delays source status snippet hdet
    simp [isRateLimited, hdet]

/-- C3 amended witness at concrete inputs (delay 4 doubles to 8; a clean
response leaves the cache untouched). -/
theorem monitor_backoff_amended_witness :
    penalizeDelay 4 = min (4 * 2 : ℚ) 300
    ∧ (4 : ℚ) < penalizeDelay 4
    ∧ penalizeDelay 4 ≤ 300
    ∧ isRateLimited [("example.com", 4)] "example.com" (some 429) ""
        = (true, alSet [("example.com", 4)] "example.com"
            (penalizeDelay ((alGet [("example.com", 4)] "example.com").getD 1)))
    ∧ isRateLimited [("example.com", 4)] "example.com" (some 200) "all good"
        = (false, [("example.com", 4)]) :=
  ⟨monitor_backoff_amended.1 4 (by norm_num),
   monitor_backoff_amended.2.1 4 (by norm_num) (by norm_num),
   monitor_backoff_amended.2.2.1 4 (by norm_num),
   monitor_backoff_amended.2.2.2.2.1 _ _ _ _ (by decide) (by decide),
   monitor_backoff_amended.2.2.2.2.2 _ _ _ _ (by decide)⟩

/-! ### Fetcher (`news_scrapper/fetcher/fetcher.py`)

Wall-clock instants and delays are rationals.  Each call to `fetch_url` is
driven by a `FetchEvent` carrying the oracle data the environment supplies:
the outcome of the robots.txt retrieval (used only on a cache miss), the
reading of `time.time()` at the crawl-delay check, and the outcome of the
`requests.get` on the target.  Performed network requests, emitted logs and
the issued request instants are returned as trace data. -/

/-- Python string slicing `s[:n]`. -/
def strTake (s : String) (n : Nat) : String := ⟨s.data.take n⟩

/-- Outcome of `requests.get` on the target URL. -/
inductive HttpOutcome
  | success (body : String) (duration : ℚ)
  | httpError (status : Nat) (body : String)
  | connError
  | timeoutError
  | requestExn
  deriving DecidableEq

/-- Outcome of fetching and parsing `robots.txt` for a domain (cache miss):
parsed rules are abstracted as the list of URLs disallowed for the client
identity, plus the `Crawl-delay` reported by the parser, if any. -/
inductive RobotsOutcome
  | fetched (disallowed : List String) (crawlDelay : Option ℚ)
  | notFound
  | httpErr
  | fetchExn
  deriving DecidableEq

/-- One `fetch_url` call together with its environment oracle. -/
structure FetchEvent where
  url : String
  scheme : String
  domain : String
  robots : RobotsOutcome
  arrival : ℚ
  outcome : HttpOutcome
  deriving DecidableEq

/-- The Fetcher object state: the configured default delay and the three
per-domain dicts (`last_request_time`, `robots_parsers_cache`,
`crawl_delays_cache`; the robots cache stores `None` for a failed fetch). -/
structure FetcherState where
  defaultDelay : ℚ
  lastRequestTime : List (String × ℚ)
  robotsCache : List (String × Option (List String))
  crawlDelays : List (String × ℚ)
  deriving DecidableEq

/-- Which log statements of `fetch_url`/`_can_fetch` fired. -/
inductive FetchLog
  | invalidUrl
  | robotsDisallowed
  | httpErrorLog (status : Nat)
  | connErrorLog
  | timeoutLog
  | requestExnLog
  deriving DecidableEq

/-- Trace entry for a performed request to the target URL. -/
structure FetchRecord where
  domain : String
  time : ℚ
  delay : ℚ
  success : Bool
  completion : ℚ
  deriving DecidableEq

/-- What a `fetch_url` call returns and did. -/
structure FetchResult where
  body : Option String
  requests : List String
  logs : List FetchLog
  record : Option FetchRecord
  deriving DecidableEq

/-- The URL of the domain's robots.txt. -/
def robotsUrl (ev : FetchEvent) : String :=
  ev.scheme ++ "://" ++ ev.domain ++ "/robots.txt"

/-- `Fetcher._get_robot_parser`: serve from the cache, else fetch robots.txt;
a 404 caches an allow-all parser, other failures cache `None`; a discovered
`Crawl-delay` is written into `crawl_delays_cache`. -/
def getRobotParser (st : FetcherState) (ev : FetchEvent) :
    Option (List String) × FetcherState × List String :=
  match alGet st.robotsCache ev.domain with
  | some cached => (cached, st, [])
  | none =>
      match ev.robots with
      | RobotsOutcome.fetched dis delay? =>
          let st1 := { st with robotsCache := alSet st.robotsCache ev.domain (some dis) }
          let st2 :=
            match delay? with
            | some dl => { st1 with crawlDelays := alSet st1.crawlDelays ev.domain dl }
            | none => st1
          (some dis, st2, [robotsUrl ev])
      | RobotsOutcome.notFound =>
          (some [], { st with robotsCache := alSet st.robotsCache ev.domain (some []) },
           [robotsUrl ev])
      | RobotsOutcome.httpErr =>
          (none, { st with robotsCache := alSet st.robotsCache ev.domain none },
           [robotsUrl ev])
      | RobotsOutcome.fetchExn =>
          (none, { st with robotsCache := alSet st.robotsCache ev.domain none },
           [robotsUrl ev])

/-- The crawl delay `_can_fetch` enforces:
`self.crawl_delays_cache.get(domain, self.default_delay_between_requests)`. -/
def delayFor (st : FetcherState) (d : String) : ℚ :=
  (alGet st.crawlDelays d).getD st.defaultDelay

/-- `self.last_request_time.get(domain, 0)`. -/
def lastTimeFor (st : FetcherState) (d : String) : ℚ :=
  (alGet st.lastRequestTime d).getD 0

/-- The instant the target request is issued: `_can_fetch` sleeps
`delay - (now - last)` when the gap is below the delay, then proceeds. -/
def requestTimeAt (st : FetcherState) (d : String) (arrival : ℚ) : ℚ :=
  if arrival - lastTimeFor st d < delayFor st d then lastTimeFor st d + delayFor st d
  else arrival

/-- The tail of `fetch_url` once robots allowed the URL and the crawl delay
elapsed: perform `requests.get`, update `last_request_time` on success, and
report HTTP error statuses (with a 200-character snippet) to
`Monitor.is_rate_limited`, which may raise the cached crawl delay. -/
def performRequest (st : FetcherState) (ev : FetchEvent) (reqs : List String) :
    FetcherState × FetchResult :=
  let t := requestTimeAt st ev.domain ev.arrival
  let dl := delayFor st ev.domain
  match ev.outcome with
  | HttpOutcome.success body dur =>
      ({ st with lastRequestTime := alSet st.lastRequestTime ev.domain (t + dur) },
       { body := some body, requests := reqs ++ [ev.url], logs := [],
         record := some ⟨ev.domain, t, dl, true, t + dur⟩ })
  | HttpOutcome.httpError status body =>
      ({ st with crawlDelays :=
           (isRateLimited st.crawlDelays ev.domain (some status) (strTake body 200)).2 },
       { body := none, requests := reqs ++ [ev.url], logs := [FetchLog.httpErrorLog status],
         record := some ⟨ev.domain, t, dl, false, t⟩ })
  | HttpOutcome.connError =>
      (st, { body := none, requests := reqs ++ [ev.url], logs := [FetchLog.connErrorLog],
             record := some ⟨ev.domain, t, dl, false, t⟩ })
  | HttpOutcome.timeoutError =>
      (st, { body := none, requests := reqs ++ [ev.url], logs := [FetchLog.timeoutLog],
             record := some ⟨ev.domain, t, dl, false, t⟩ })
  | HttpOutcome.requestExn =>
      (st, { body := none, requests := reqs ++ [ev.url], logs := [FetchLog.requestExnLog],
             record := some ⟨ev.domain, t, dl, false, t⟩ })

/-- `Fetcher.fetch_url`: reject URLs without a domain, check robots rules
(disallowed URLs fail with no target request), then enforce the crawl delay
and perform the request. -/
def fetchUrl (st : FetcherState) (ev : FetchEvent) : FetcherState × FetchResult :=
  if ev.domain = "" then
    (st, { body := none, requests := [], logs := [FetchLog.invalidUrl], record := none })
  else
    let gp := getRobotParser st ev
    match gp.1 with
    | some rules =>
        if ev.url ∈ rules then
          (gp.2.1, { body := none, requests := gp.2.2,
                     logs := [FetchLog.robotsDisallowed], record := none })
        else performRequest gp.2.1 ev gp.2.2
    | none => performRequest gp.2.1 ev gp.2.2

/-- Run a sequence of `fetch_url` calls, collecting the performed-request
trace. -/
def runFetcher : FetcherState → List FetchEvent → FetcherState × List FetchRecord
  | st, [] => (st, [])
  | st, ev :: evs =>
      let s := fetchUrl st ev
      let r := runFetcher s.1 evs
      (r.1, s.2.record.toList ++ r.2)

/-- The politeness-gap relation of the claim: the later request is issued no
earlier than the enforced delay after the earlier one. -/
def politeGap (r1 r2 : FetchRecord) : Prop := r1.time + r2.delay ≤ r2.time

/-- The politeness gap that the code actually guarantees: only a successful
earlier request constrains the next request's instant. -/
def politeGapAfterSuccess (r1 r2 : FetchRecord) : Prop :=
  r1.success = true → r1.time + r2.delay ≤ r2.time

theorem getRobotParser_preserves (st : FetcherState) (ev : FetchEvent) :
    (getRobotParser st ev).2.1.lastRequestTime = st.lastRequestTime := by
  unfold getRobotParser
  cases h : alGet st.robotsCache ev.domain with
  | some cached => simp
  | none =>
      cases ev.robots with
      | fetched dis delay? => cases delay? <;> simp
      | notFound => simp
      | httpErr => simp
      | fetchExn => simp

theorem getRobotParser_requests (st : FetcherState) (ev : FetchEvent) :
    ∀ u ∈ (getRobotParser st ev).2.2, u = robotsUrl ev := by
  unfold getRobotParser
  cases h : alGet st.robotsCache ev.domain with
  | some cached => simp
  | none =>
      cases ev.robots with
      | fetched dis delay? => cases delay? <;> simp
      | notFound => simp
      | httpErr => simp
      | fetchExn => simp

theorem requestTimeAt_ge (st : FetcherState) (d : String) (a : ℚ) :
    lastTimeFor st d + delayFor st d ≤ requestTimeAt st d a := by
  unfold requestTimeAt
  split_ifs with h
  · exact le_refl _
  · linarith

theorem performRequest_record (st : FetcherState) (ev : FetchEvent) (reqs : List String) :
    ∃ r : FetchRecord,
      (performRequest st ev reqs).2.record = some r
      ∧ r.domain = ev.domain
      ∧ r.delay = delayFor st ev.domain
      ∧ r.time = requestTimeAt st ev.domain ev.arrival
      ∧ (r.success = true →
          (performRequest st ev reqs).1.lastRequestTime
            = alSet st.lastRequestTime ev.domain r.completion)
      ∧ (r.success = false →
          (performRequest st ev reqs).1.lastRequestTime = st.lastRequestTime)
      ∧ (r.success = true →
          ∃ b q, ev.outcome = HttpOutcome.success b q ∧ r.completion = r.time + q) := by
  cases hout : ev.outcome with
  | success body dur =>
      refine ⟨⟨ev.domain, requestTimeAt st ev.domain ev.arrival, delayFor st ev.domain,
          true, requestTimeAt st ev.domain ev.arrival + dur⟩, ?_, rfl, rfl, rfl, ?_, ?_, ?_⟩
      · simp [performRequest, hout]
      · intro _
        simp [performRequest, hout]
      · intro hfalse
        simp at hfalse
      · intro _
        exact ⟨body, dur, rfl, rfl⟩
  | httpError status body =>
      refine ⟨⟨ev.domain, requestTimeAt st ev.domain ev.arrival, delayFor st ev.domain,
          false, requestTimeAt st ev.domain ev.arrival⟩, ?_, rfl, rfl, rfl, ?_, ?_, ?_⟩
      · simp [performRequest, hout]
      · intro htrue
        simp at htrue
      · intro _
        simp [performRequest, hout]
      · intro htrue
        simp at htrue
  | connError =>
      refine ⟨⟨ev.domain, requestTimeAt st ev.domain ev.arrival, delayFor st ev.domain,
          false, requestTimeAt st ev.domain ev.arrival⟩, ?_, rfl, rfl, rfl, ?_, ?_, ?_⟩
      · simp [performRequest, hout]
      · intro htrue
        simp at htrue
      · intro _
        simp [performRequest, hout]
      · intro htrue
        simp at htrue
  | timeoutError =>
      refine ⟨⟨ev.domain, requestTimeAt st ev.domain ev.arrival, delayFor st ev.domain,
          false, requestTimeAt st ev.domain ev.arrival⟩, ?_, rfl, rfl, rfl, ?_, ?_, ?_⟩
      · simp [performRequest, hout]
      · intro htrue
        simp at htrue
      · intro _
        simp [performRequest, hout]
      · intro htrue
        simp at htrue
  | requestExn =>
      refine ⟨⟨ev.domain, requestTimeAt st ev.domain ev.arrival, delayFor st ev.domain,
          false, requestTimeAt st ev.domain ev.arrival⟩, ?_, rfl, rfl, rfl, ?_, ?_, ?_⟩
      · simp [performRequest, hout]
      · intro htrue
        simp at htrue
      · intro _
        simp [performRequest, hout]
      · intro htrue
        simp at htrue

theorem fetchUrl_cases (st : FetcherState) (ev : FetchEvent) :
    ((fetchUrl st ev).2.record = none
       ∧ (fetchUrl st ev).1.lastRequestTime = st.lastRequestTime)
    ∨ (∃ st1 reqs, st1.lastRequestTime = st.lastRequestTime
        ∧ fetchUrl st ev = performRequest st1 ev reqs) := by
  unfold fetchUrl
  split_ifs with h
  · left; simp
  · cases hgp : (getRobotParser st ev).1 with
    | some rules =>
        by_cases hmem : ev.url ∈ rules
        · left
          have hpres := getRobotParser_preserves st ev
          constructor
          · simp [hgp, hmem]
          · simp [hgp, hmem, hpres]
        · right
          exact ⟨(getRobotParser st ev).2.1, (getRobotParser st ev).2.2,
            getRobotParser_preserves st ev, by simp [hgp, hmem]⟩
    | none =>
        right
        exact ⟨(getRobotParser st ev).2.1, (getRobotParser st ev).2.2,
          getRobotParser_preserves st ev, by simp [hgp]⟩

theorem memOfGetLast? {α : Type} {l : List α} {a : α} (h : l.getLast? = some a) :
    a ∈ l := by
  obtain ⟨hne, heq⟩ := List.mem_getLast?_eq_getLast (Option.mem_def.mpr h)
  exact heq ▸ List.getLast_mem hne

/-- The link between the `last_request_time` cache and the request trace:
if the most recent request to domain `d` succeeded, the cache holds its
completion instant. -/
def successLink (st : FetcherState) (d : String) (fr : List FetchRecord) : Prop :=
  ∀ r, fr.getLast? = some r → r.success = true →
    alGet st.lastRequestTime d = some r.completion

theorem runFetcher_polite_aux (d : String) :
    ∀ (evs : List FetchEvent) (st : FetcherState) (fr : List FetchRecord),
      (∀ ev ∈ evs, ∀ b q, ev.outcome = HttpOutcome.success b q → 0 ≤ q) →
      List.Chain' politeGapAfterSuccess fr →
      (∀ r ∈ fr, r.success = true → r.time ≤ r.completion) →
      successLink st d fr →
      List.Chain' politeGapAfterSuccess
        (fr ++ (runFetcher st evs).2.filter (fun r => r.domain == d)) := by
  intro evs
  induction evs with
  | nil =>
      intro st fr _ hch _ _
      simpa [runFetcher] using hch
  | cons ev evs ih =>
      intro st fr hdur hch hcomp hlink
      have hdur' : ∀ e ∈ evs, ∀ b q, e.outcome = HttpOutcome.success b q → 0 ≤ q :=
        fun e he => hdur e (List.mem_cons_of_mem _ he)
      have hdev : ∀ b q, ev.outcome = HttpOutcome.success b q → 0 ≤ q :=
        hdur ev (List.mem_cons_self _ _)
      simp only [runFetcher, List.filter_append]
      rcases fetchUrl_cases st ev with ⟨hrec, hlast⟩ | ⟨st1, reqs, hlast1, heq⟩
      · rw [hrec]
        simp only [Option.toList, List.filter_nil, List.nil_append]
        refine ih (fetchUrl st ev).1 fr hdur' hch hcomp ?_
        intro r hr hs
        rw [hlast]
        exact hlink r hr hs
      · obtain ⟨r, hrecEq, hdomEq, hdelayEq, htimeEq, hsucc, hfail, hcompEv⟩ :=
          performRequest_record st1 ev reqs
        rw [heq, hrecEq]
        have hpres_ne : ev.domain ≠ d →
            alGet (performRequest st1 ev reqs).1.lastRequestTime d
              = alGet st.lastRequestTime d := by
          intro hne
          cases hs : r.success with
          | true =>
              rw [hsucc hs, alGet_alSet_ne _ _ _ _ hne, hlast1]
          | false =>
              rw [hfail hs, hlast1]
        by_cases hd : ev.domain = d
        · -- the new record belongs to domain `d`: extend the chain
          have hfilter : (Option.toList (some r)).filter (fun x => x.domain == d) = [r] := by
            simp [Option.toList, hdomEq, hd]
          rw [hfilter, ← List.append_assoc]
          have hlinkr : ∀ x ∈ fr.getLast?, politeGapAfterSuccess x r := by
            intro x hx hxs
            have hxmem : x ∈ fr := memOfGetLast? hx
            have hxcomp : alGet st.lastRequestTime d = some x.completion :=
              hlink x hx hxs
            have h1 : lastTimeFor st1 ev.domain + delayFor st1 ev.domain
                ≤ requestTimeAt st1 ev.domain ev.arrival := requestTimeAt_ge _ _ _
            have h2 : lastTimeFor st1 ev.domain = x.completion := by
              unfold lastTimeFor
              rw [hlast1, hd, hxcomp]
              rfl
            have h3 : x.time ≤ x.completion := hcomp x hxmem hxs
            rw [htimeEq, hdelayEq]
            calc x.time + delayFor st1 ev.domain
                ≤ x.completion + delayFor st1 ev.domain := by linarith
              _ = lastTimeFor st1 ev.domain + delayFor st1 ev.domain := by rw [h2]
              _ ≤ requestTimeAt st1 ev.domain ev.arrival := h1
          have hch' : List.Chain' politeGapAfterSuccess (fr ++ [r]) := by
            rw [List.chain'_append]
            exact ⟨hch, List.chain'_singleton r, by
              intro x hx y hy
              simp only [List.head?_cons, Option.mem_def, Option.some.injEq] at hy
              subst hy
              exact hlinkr x hx⟩
          have hcomp' : ∀ x ∈ fr ++ [r], x.success = true → x.time ≤ x.completion := by
            intro x hx hxs
            rcases List.mem_append.mp hx with hx | hx
            · exact hcomp x hx hxs
            · rw [List.mem_singleton] at hx
              subst hx
              obtain ⟨b, q, hout, hcq⟩ := hcompEv hxs
              rw [hcq]
              have := hdev b q hout
              linarith
          have hlink' : successLink (performRequest st1 ev reqs).1 d (fr ++ [r]) := by
            intro x hx hxs
            rw [List.getLast?_concat] at hx
            injection hx with hx
            subst hx
            rw [hsucc hxs, ← hd, alGet_alSet_self]
          exact ih (performRequest st1 ev reqs).1 (fr ++ [r]) hdur' hch' hcomp' hlink'
        · -- other domain: the record is filtered out and `d`'s cache entry survives
          have hfilter : (Option.toList (some r)).filter (fun x => x.domain == d) = [] := by
            simp [Option.toList, hdomEq, hd]
          rw [hfilter, List.nil_append]
          refine ih (performRequest st1 ev reqs).1 fr hdur' hch hcomp ?_
          intro x hx hxs
          rw [hpres_ne hd]
          exact hlink x hx hxs

/-- C2 amended: from any initial Fetcher state, along any sequence of
`fetch_url` calls (with nonnegative response durations), any request to a
domain that follows a SUCCESSFUL request to the same domain is issued at
least the then-enforced crawl delay — the cached delay if present, else the
configured default — after it.  (After a failed request the gap is not
enforced, and the enforced delay is the cache-else-default value, not the
maximum of robots, Monitor and default delays.) -/
theorem fetcher_politeness_amended (d : String) (st0 : FetcherState)
    (evs : List FetchEvent)
    (hdur : ∀ ev ∈ evs, ∀ b q, ev.outcome = HttpOutcome.success b q → 0 ≤ q) :
    List.Chain' politeGapAfterSuccess
      ((runFetcher st0 evs).2.filter (fun r => r.domain == d)) := by
  have := runFetcher_polite_aux d evs st0 [] hdur (List.chain'_nil)
    (by intro r hr; simp at hr) (by intro r hr; simp at hr)
  simpa using this

/-- Initial state for the politeness counterexample: default delay 1s, robots
rules for `d.com` cached as allow-all. -/
def politeCexState : FetcherState :=
  { defaultDelay := 1, lastRequestTime := [], robotsCache := [("d.com", some [])],
    crawlDelays := [] }

/-- A `fetch_url` call on `d.com` with the given clock reading and outcome. -/
def politeCexEvent (arrival : ℚ) (outcome : HttpOutcome) : FetchEvent :=
  { url := "https://d.com/a", scheme := "https", domain := "d.com",
    robots := RobotsOutcome.notFound, arrival := arrival, outcome := outcome }

/-- C2 counterexample: a successful fetch at t=1000, a failed fetch (HTTP
500) at t=1010, and another fetch at t=1010.  Because `last_request_time` is
only updated on success, the third request is issued 0 seconds after the
second one, violating the claimed politeness gap (delay 1s) between
consecutive requests when the earlier one failed. -/
theorem fetcher_politeness_counterexample :
    ¬ List.Chain' politeGap
      ((runFetcher politeCexState
          [politeCexEvent 1000 (HttpOutcome.success "ok" 0),
           politeCexEvent 1010 (HttpOutcome.httpError 500 "oops"),
           politeCexEvent 1010 (HttpOutcome.success "ok" 0)]).2.filter
        (fun r => r.domain == "d.com")) := by
  have hdet : detectLimited (some 500) (strTake "oops" 200) = false := by decide
  have hne : ("d.com" : String) ≠ "" := by decide
  have htrace : (runFetcher politeCexState
      [politeCexEvent 1000 (HttpOutcome.success "ok" 0),
       politeCexEvent 1010 (HttpOutcome.httpError 500 "oops"),
       politeCexEvent 1010 (HttpOutcome.success "ok" 0)]).2
      = [⟨"d.com", 1000, 1, true, 1000⟩, ⟨"d.com", 1010, 1, false, 1010⟩,
         ⟨"d.com", 1010, 1, true, 1010⟩] := by
    norm_num [runFetcher, fetchUrl, getRobotParser, performRequest, requestTimeAt,
      lastTimeFor, delayFor, alGet, alSet, isRateLimited, hdet, hne, robotsUrl,
      politeCexState, politeCexEvent]
  rw [htrace]
  intro hch
  have h' : politeGap ⟨"d.com", 1000, 1, true, 1000⟩ ⟨"d.com", 1010, 1, false, 1010⟩
      ∧ politeGap ⟨"d.com", 1010, 1, false, 1010⟩ ⟨"d.com", 1010, 1, true, 1010⟩ := by
    simpa using hch
  unfold politeGap at h'
  norm_num at h'

/-- C2 amended witness: a single successful fetch yields a politely spaced
(one-element) trace. -/
theorem fetcher_politeness_amended_witness :
    List.Chain' politeGapAfterSuccess
      ((runFetcher politeCexState
          [politeCexEvent 1000 (HttpOutcome.success "ok" 0)]).2.filter
        (fun r => r.domain == "d.com")) :=
  fetcher_politeness_amended "d.com" politeCexState _ (by
    intro ev hev b q hq
    simp only [List.mem_singleton] at hev
    subst hev
    simp only [politeCexEvent] at hq
    injection hq with hb hq'
    subst hq'
    norm_num)

/-- C4 For every URL disallowed by the domain's robots rules for the active
client identity, `fetch_url` returns no body, emits the robots-disallowed
Monitor log, performs no request to the target (at most the robots.txt fetch
itself), and records no issued request. -/
theorem fetcher_robots_block (st : FetcherState) (ev : FetchEvent)
    (rules : List String)
    (hdom : ev.domain ≠ "")
    (hrules : (getRobotParser st ev).1 = some rules)
    (hdis : ev.url ∈ rules) :
    (fetchUrl st ev).2.body = none
    ∧ FetchLog.robotsDisallowed ∈ (fetchUrl st ev).2.logs
    ∧ (fetchUrl st ev).2.record = none
    ∧ ∀ u ∈ (fetchUrl st ev).2.requests, u = robotsUrl ev := by
  refine ⟨by simp [fetchUrl, hdom, hrules, hdis],
    by simp [fetchUrl, hdom, hrules, hdis],
    by simp [fetchUrl, hdom, hrules, hdis], ?_⟩
  intro u hu
  simp only [fetchUrl, hdom, if_false, hrules, if_pos hdis] at hu
  exact getRobotParser_requests st ev u hu

/-- C4 witness: a concretely disallowed URL is blocked with only the robots
fetch performed. -/
theorem fetcher_robots_block_witness :
    (let st : FetcherState :=
      { defaultDelay := 1, lastRequestTime := [],
        robotsCache := [("d.com", some ["https://d.com/secret"])], crawlDelays := [] };
     let ev : FetchEvent :=
      { url := "https://d.com/secret", scheme := "https", domain := "d.com",
        robots := RobotsOutcome.notFound, arrival := 1000,
        outcome := HttpOutcome.success "ok" 0 };
     (fetchUrl st ev).2.body = none
     ∧ FetchLog.robotsDisallowed ∈ (fetchUrl st ev).2.logs
     ∧ (fetchUrl st ev).2.record = none
     ∧ ∀ u ∈ (fetchUrl st ev).2.requests, u = robotsUrl ev) :=
  fetcher_robots_block _ _ ["https://d.com/secret"] (by decide) (by decide) (by decide)

/-- C5 counterexample: an HTTP 403 whose body contains a block keyword
(`access denied`) DOES raise the domain's cached crawl delay (1 → 2), even
though 403 is neither 429 nor 503, refuting `delay raised only when the
status is 429 or 503`. -/
theorem fetcher_http_error_delay_counterexample :
    (fetchUrl
        { defaultDelay := 1, lastRequestTime := [],
          robotsCache := [("api.example.com", some [])], crawlDelays := [] }
        { url := "https://api.example.com/x", scheme := "https",
          domain := "api.example.com", robots := RobotsOutcome.notFound,
          arrival := 1000,
          outcome := HttpOutcome.httpError 403 "Access denied" }).1.crawlDelays
      = [("api.example.com", 2)]
    ∧ (fetchUrl
        { defaultDelay := 1, lastRequestTime := [],
          robotsCache := [("api.example.com", some [])], crawlDelays := [] }
        { url := "https://api.example.com/x", scheme := "https",
          domain := "api.example.com", robots := RobotsOutcome.notFound,
          arrival := 1000,
          outcome := HttpOutcome.httpError 403 "Access denied" }).2.body = none
    ∧ (403 : Nat) ≠ 429 ∧ (403 : Nat) ≠ 503 := by
  have hdet : detectLimited (some 403) (strTake "Access denied" 200) = true := by decide
  have hdom2 : domainToPenalize "api.example.com" = some "api.example.com" := by decide
  have hne : ("api.example.com" : String) ≠ "" := by decide
  refine ⟨?_, ?_, by norm_num, by norm_num⟩ <;>
    norm_num [fetchUrl, getRobotParser, performRequest, isRateLimited, hdet, hdom2, hne,
      alGet, alSet, penalizeDelay, ratMin, requestTimeAt, lastTimeFor, delayFor]

/-- C5 amended: a fetch ending in an HTTP error status surfaces a recoverable
failure (no body is returned and the embedded call is total — no exception
escapes), performs exactly the one target request, leaves
`last_request_time` unchanged, and hands the status plus a 200-character
body snippet to `Monitor.is_rate_limited`, which raises the domain's cached
delay exactly when the status is 429/503 OR the snippet contains a block
keyword; with no detection the cached delays are unchanged. -/
theorem fetcher_http_error_amended (st : FetcherState) (ev : FetchEvent)
    (status : Nat) (body : String) (ro : Option (List String))
    (hdom : ev.domain ≠ "")
    (hout : ev.outcome = HttpOutcome.httpError status body)
    (hcache : alGet st.robotsCache ev.domain = some ro)
    (hallow : ∀ rules, ro = some rules → ev.url ∉ rules) :
    (fetchUrl st ev).2.body = none
    ∧ (fetchUrl st ev).2.requests = [ev.url]
    ∧ FetchLog.httpErrorLog status ∈ (fetchUrl st ev).2.logs
    ∧ (fetchUrl st ev).1.lastRequestTime = st.lastRequestTime
    ∧ (fetchUrl st ev).1.crawlDelays
        = (isRateLimited st.crawlDelays ev.domain (some status) (strTake body 200)).2
    ∧ (detectLimited (some status) (strTake body 200) = false →
        (fetchUrl st ev).1.crawlDelays = st.crawlDelays) := by
  have hgp : getRobotParser st ev = (ro, st, []) := by
    unfold getRobotParser
    rw [hcache]
  have hfu : fetchUrl st ev = performRequest st ev [] := by
    unfold fetchUrl
    rw [if_neg hdom, hgp]
    cases ro with
    | none => simp
    | some rules => simp [hallow rules rfl]
  rw [hfu]
  refine ⟨by simp [performRequest, hout], by simp [performRequest, hout],
    by simp [performRequest, hout], by simp [performRequest, hout],
    by simp [performRequest, hout], ?_⟩
  intro hdet
  simp [performRequest, hout, isRateLimited, hdet]

/-- C5 amended witness: a concrete 404 with a clean body is surfaced as a
recoverable error with the cached delays untouched. -/
theorem fetcher_http_error_amended_witness :
    (let st : FetcherState :=
      { defaultDelay := 1, lastRequestTime := [],
        robotsCache := [("d.com", some [])], crawlDelays := [("d.com", 5)] };
     let ev : FetchEvent :=
      { url := "https://d.com/a", scheme := "https", domain := "d.com",
        robots := RobotsOutcome.notFound, arrival := 1000,
        outcome := HttpOutcome.httpError 404 "not here" };
     (fetchUrl st ev).2.body = none
     ∧ (fetchUrl st ev).2.requests = [ev.url]
     ∧ (fetchUrl st ev).1.lastRequestTime = st.lastRequestTime
     ∧ (fetchUrl st ev).1.crawlDelays = st.crawlDelays) := by
  have h := fetcher_http_error_amended
    { defaultDelay := 1, lastRequestTime := [],
      robotsCache := [("d.com", some [])], crawlDelays := [("d.com", 5)] }
    { url := "https://d.com/a", scheme := "https", domain := "d.com",
      robots := RobotsOutcome.notFound, arrival := 1000,
      outcome := HttpOutcome.httpError 404 "not here" }
    404 "not here" (some []) (by decide) rfl (by decide) (by decide)
  exact ⟨h.1, h.2.1, h.2.2.2.1, h.2.2.2.2.2 (by decide)⟩

/-! ### Parser (`news_scrapper/parser/parser.py`)

`parse_content` is embedded with the library-backed extraction strategies
(extruct, BeautifulSoup selectors, crawl4ai, the LLM selector generator) as
oracle values in a `ParseEnv`; the orchestration, sufficiency checks,
normalization of title/text, Planner calls and the strategy order are
translated from the source.  The result dict is projected to the fields this
development reasons about (`title`, `text`, `extraction_method`). -/

/-- The raw `title`/`text` values a strategy extracts before
`_normalize_extracted_data` (a missing dict key is `none`). -/
structure RawData where
  title : Option String
  text : Option String
  deriving DecidableEq

/-- A selector mapping (`extraction_selectors`): `key` identifies the
concrete selector dict, `isEmptyFlag` models its `_isEmpty` marker. -/
structure SelMap where
  key : Nat
  isEmptyFlag : Bool
  deriving DecidableEq

/-- The title/text/method projection of a normalized extraction dict. -/
structure NormData where
  title : Option String
  text : Option String
  method : String
  deriving DecidableEq

/-- Python `str.strip()`: drop whitespace from both ends (char-level). -/
def stripChars (s : List Char) : List Char :=
  ((s.dropWhile Char.isWhitespace).reverse.dropWhile Char.isWhitespace).reverse

/-- Python `str.strip()` on a string. -/
def strStrip (s : String) : String := ⟨stripChars s.data⟩

/-- `str(v).strip() if v else None` from `_normalize_extracted_data`:
a falsy raw value becomes `None`, a truthy one is trimmed (possibly to the
empty string, which is kept as a string). -/
def normField (o : Option String) : Option String :=
  match o with
  | none => none
  | some s => if s = "" then none else some (strStrip s)

/-- `_normalize_extracted_data`, projected to title/text/method. -/
def normalizeRaw (method : String) (r : RawData) : NormData :=
  { title := normField r.title, text := normField r.text, method := method }

/-- `Parser._is_data_sufficient`: the dict is truthy and both `title` and
`text` are truthy. -/
def isDataSufficient (o : Option NormData) : Bool :=
  match o with
  | none => false
  | some d => truthy d.title && truthy d.text

/-- The relevant fields of a `SourceConfig` dict as read by
`parse_content` (`none` models a missing key). -/
structure SourceCfg where
  extractionSelectors : Option SelMap
  llmAnalysisPending : Option Bool
  deriving DecidableEq

/-- Oracles for the extraction strategies of `parse_content`. -/
structure ParseEnv where
  schemaRaw : Option RawData
  customRaw : SelMap → Option RawData
  llmCanRun : Bool
  llmSelectors : Option SelMap
  generalAiRaw : Option RawData

/-- Which extraction strategy was invoked. -/
inductive StrategyTag
  | schemaOrg
  | customCss
  | llmLearn
  | generalAi
  deriving DecidableEq

/-- A call `parse_content` makes into the Planner. -/
inductive PlannerEff
  | updateSelectors (s : SelMap)
  | setLlmFlag (b : Bool)
  | saveConfig
  deriving DecidableEq

/-- What a `parse_content` call returned and did: the result projection, the
strategies attempted in order (with whether each produced a sufficient
result), and the Planner calls made. -/
structure ParseOutcome where
  result : NormData
  attempts : List (StrategyTag × Bool)
  effects : List PlannerEff
  deriving DecidableEq

/-- `not custom_selectors or custom_selectors.get("_isEmpty", False)`:
no usable selectors exist on the source. -/
def noUsableSelectors (cfg : SourceCfg) : Bool :=
  match cfg.extractionSelectors with
  | none => true
  | some s => s.isEmptyFlag

/-- Steps 2a/2b of `parse_content`: existing custom selectors, then the
one-time LLM selector learning with its three outcomes. -/
def parseStep2 (env : ParseEnv) (cfg : SourceCfg) (final1 : Option NormData) :
    Option NormData × List (StrategyTag × Bool) × List PlannerEff :=
  if isDataSufficient final1 then (final1, [], [])
  else
    let needsLlm := noUsableSelectors cfg && cfg.llmAnalysisPending.getD true
    let customTried :=
      match cfg.extractionSelectors with
      | some sel =>
          if sel.isEmptyFlag then (none, [])
          else
            let resultCustom := (env.customRaw sel).map (normalizeRaw "custom_css")
            ((if isDataSufficient resultCustom then resultCustom else none),
             [(StrategyTag.customCss, isDataSufficient resultCustom)])
      | none => ((none : Option NormData), ([] : List (StrategyTag × Bool)))
    let finalC := customTried.1
    let aC := customTried.2
    if !isDataSufficient finalC && needsLlm then
      if env.llmCanRun then
        match env.llmSelectors with
        | some ns =>
            if !ns.isEmptyFlag then
              let resultLlm := (env.customRaw ns).map (normalizeRaw "custom_css")
              ((if isDataSufficient resultLlm then resultLlm else finalC),
               aC ++ [(StrategyTag.llmLearn, false),
                      (StrategyTag.customCss, isDataSufficient resultLlm)],
               [PlannerEff.updateSelectors ns, PlannerEff.setLlmFlag false,
                PlannerEff.saveConfig])
            else
              (finalC, aC ++ [(StrategyTag.llmLearn, false)],
               [PlannerEff.updateSelectors ns, PlannerEff.setLlmFlag false,
                PlannerEff.saveConfig])
        | none =>
            (finalC, aC ++ [(StrategyTag.llmLearn, false)],
             [PlannerEff.setLlmFlag false, PlannerEff.saveConfig])
      else (finalC, aC, [])
    else (finalC, aC, [])

/-- Step 3 of `parse_content`: the general-AI fallback, also retained as a
partial result when insufficient but nonempty. -/
def parseStep3 (env : ParseEnv) (final2 : Option NormData) :
    Option NormData × List (StrategyTag × Bool) :=
  if isDataSufficient final2 then (final2, [])
  else
    let resultAi := (env.generalAiRaw).map (normalizeRaw "general_ai")
    if isDataSufficient resultAi then (resultAi, [(StrategyTag.generalAi, true)])
    else if resultAi.isSome && final2.isNone then
      (resultAi, [(StrategyTag.generalAi, false)])
    else (final2, [(StrategyTag.generalAi, false)])

/-- Step 1 of `parse_content`: the Schema.org strategy result. -/
def schemaResult (env : ParseEnv) : Option NormData :=
  (env.schemaRaw).map (normalizeRaw "schema_org")

/-- `final_result` after step 1 (set only when sufficient). -/
def parseFinal1 (env : ParseEnv) : Option NormData :=
  if isDataSufficient (schemaResult env) then schemaResult env else none

/-- `Parser.parse_content`: the ordered strategy chain (Schema.org, custom
selectors, one-time LLM learning with re-run, general AI), finalized to a
returned dict whose method falls back to `no_data_found` when no strategy
produced anything. -/
def parseContent (env : ParseEnv) (cfg : SourceCfg) : ParseOutcome :=
  let final1 := parseFinal1 env
  let a1 := [(StrategyTag.schemaOrg, isDataSufficient (schemaResult env))]
  let s2 := parseStep2 env cfg final1
  let s3 := parseStep3 env s2.1
  match s3.1 with
  | some r => { result := r, attempts := a1 ++ (s2.2.1 ++ s3.2), effects := s2.2.2 }
  | none =>
      { result := { title := none, text := none, method := "no_data_found" },
        attempts := a1 ++ (s2.2.1 ++ s3.2), effects := s2.2.2 }

@[simp] theorem isDataSufficient_none : isDataSufficient none = false := rfl

@[simp] theorem isDataSufficient_some (d : NormData) :
    isDataSufficient (some d) = (truthy d.title && truthy d.text) := rfl

theorem parseStep2_props (env : ParseEnv) (cfg : SourceCfg) (f1 : Option NormData) :
    ((parseStep2 env cfg f1).2.1.map Prod.fst).Sublist
      [StrategyTag.customCss, StrategyTag.llmLearn, StrategyTag.customCss]
    ∧ (∀ e ∈ (parseStep2 env cfg f1).2.1.dropLast, e.2 = false)
    ∧ (isDataSufficient (parseStep2 env cfg f1).1 = false →
        (parseStep2 env cfg f1).1 = none
        ∧ ∀ e ∈ (parseStep2 env cfg f1).2.1, e.2 = false)
    ∧ (isDataSufficient f1 = true → parseStep2 env cfg f1 = (f1, [], [])) := by
  by_cases h1 : isDataSufficient f1
  · refine ⟨?_, ?_, ?_, ?_⟩ <;> simp [parseStep2, h1]
  · have h1' : isDataSufficient f1 = false := by simpa using h1
    cases hsel : cfg.extractionSelectors with
    | none =>
        by_cases hp : cfg.llmAnalysisPending.getD true
        · by_cases hrun : env.llmCanRun
          · cases hns : env.llmSelectors with
            | none =>
                refine ⟨?_, ?_, ?_, ?_⟩ <;>
                  simp [parseStep2, noUsableSelectors, h1', hsel, hp, hrun, hns]
            | some ns =>
                by_cases hflag : ns.isEmptyFlag
                · refine ⟨?_, ?_, ?_, ?_⟩ <;>
                    simp [parseStep2, noUsableSelectors, h1', hsel, hp, hrun, hns, hflag]
                · by_cases hllm :
                      isDataSufficient ((env.customRaw ns).map (normalizeRaw "custom_css"))
                  · refine ⟨?_, ?_, ?_, ?_⟩ <;>
                      simp [parseStep2, noUsableSelectors, h1', hsel, hp, hrun, hns, hflag, hllm]
                  · have hllm' : isDataSufficient
                        ((env.customRaw ns).map (normalizeRaw "custom_css")) = false := by
                      simpa using hllm
                    refine ⟨?_, ?_, ?_, ?_⟩ <;>
                      simp [parseStep2, noUsableSelectors, h1', hsel, hp, hrun, hns, hflag, hllm']
          · refine ⟨?_, ?_, ?_, ?_⟩ <;>
              simp [parseStep2, noUsableSelectors, h1', hsel, hp, hrun]
        · have hp' : cfg.llmAnalysisPending.getD true = false := by simpa using hp
          refine ⟨?_, ?_, ?_, ?_⟩ <;>
            simp [parseStep2, noUsableSelectors, h1', hsel, hp']
    | some sel =>
        by_cases hempty : sel.isEmptyFlag
        · by_cases hp : cfg.llmAnalysisPending.getD true
          · by_cases hrun : env.llmCanRun
            · cases hns : env.llmSelectors with
              | none =>
                  refine ⟨?_, ?_, ?_, ?_⟩ <;>
                    simp [parseStep2, noUsableSelectors, h1', hsel, hempty, hp, hrun, hns]
              | some ns =>
                  by_cases hflag : ns.isEmptyFlag
                  · refine ⟨?_, ?_, ?_, ?_⟩ <;>
                      simp [parseStep2, noUsableSelectors, h1', hsel, hempty, hp, hrun, hns, hflag]
                  · by_cases hllm :
                        isDataSufficient ((env.customRaw ns).map (normalizeRaw "custom_css"))
                    · refine ⟨?_, ?_, ?_, ?_⟩ <;>
                        simp [parseStep2, noUsableSelectors, h1', hsel, hempty, hp, hrun, hns, hflag, hllm]
                    · have hllm' : isDataSufficient
                          ((env.customRaw ns).map (normalizeRaw "custom_css")) = false := by
                        simpa using hllm
                      refine ⟨?_, ?_, ?_, ?_⟩ <;>
                        simp [parseStep2, noUsableSelectors, h1', hsel, hempty, hp, hrun, hns, hflag, hllm']
            · refine ⟨?_, ?_, ?_, ?_⟩ <;>
                simp [parseStep2, noUsableSelectors, h1', hsel, hempty, hp, hrun]
          · have hp' : cfg.llmAnalysisPending.getD true = false := by simpa using hp
            refine ⟨?_, ?_, ?_, ?_⟩ <;>
              simp [parseStep2, noUsableSelectors, h1', hsel, hempty, hp']
        · by_cases hc :
              isDataSufficient ((env.customRaw sel).map (normalizeRaw "custom_css"))
          · refine ⟨?_, ?_, ?_, ?_⟩ <;>
              simp [parseStep2, noUsableSelectors, h1', hsel, hempty, hc]
          · have hc' : isDataSufficient
                ((env.customRaw sel).map (normalizeRaw "custom_css")) = false := by
              simpa using hc
            refine ⟨?_, ?_, ?_, ?_⟩ <;>
              simp [parseStep2, noUsableSelectors, h1', hsel, hempty, hc']

theorem parseStep3_suff (env : ParseEnv) (f2 : Option NormData)
    (h : isDataSufficient f2 = true) : parseStep3 env f2 = (f2, []) := by
  simp [parseStep3, h]

theorem parseStep3_insuff (env : ParseEnv) (f2 : Option NormData)
    (h : isDataSufficient f2 = false) :
    (parseStep3 env f2).2
      = [(StrategyTag.generalAi,
          isDataSufficient ((env.generalAiRaw).map (normalizeRaw "general_ai")))] := by
  by_cases ha : isDataSufficient ((env.generalAiRaw).map (normalizeRaw "general_ai"))
  · simp [parseStep3, h, ha]
  · have ha' : isDataSufficient ((env.generalAiRaw).map (normalizeRaw "general_ai"))
        = false := by simpa using ha
    simp only [parseStep3, h, Bool.false_eq_true, if_false, ha']
    split_ifs <;> rfl

theorem parseStep3_tags (env : ParseEnv) (f2 : Option NormData) :
    ((parseStep3 env f2).2.map Prod.fst).Sublist [StrategyTag.generalAi] := by
  by_cases h : isDataSufficient f2
  · simp [parseStep3_suff env f2 h]
  · rw [parseStep3_insuff env f2 (by simpa using h)]
    simp

theorem parseStep3_result_none (env : ParseEnv) :
    (parseStep3 env none).1 = none
    ∨ isDataSufficient (parseStep3 env none).1 = true
    ∨ ∃ raw, env.generalAiRaw = some raw
        ∧ (parseStep3 env none).1 = some (normalizeRaw "general_ai" raw) := by
  by_cases ha : isDataSufficient ((env.generalAiRaw).map (normalizeRaw "general_ai"))
  · right; left
    simp [parseStep3, ha]
  · cases hg : env.generalAiRaw with
    | none => left; simp [parseStep3, hg]
    | some raw =>
        right; right
        refine ⟨raw, rfl, ?_⟩
        have ha' : isDataSufficient ((env.generalAiRaw).map (normalizeRaw "general_ai"))
            = false := by simpa using ha
        rw [hg] at ha'
        simp only [parseStep3, hg, Option.map_some, isDataSufficient_none,
          Bool.false_eq_true, if_false]
        split_ifs <;> simp_all

theorem parseContent_attempts (env : ParseEnv) (cfg : SourceCfg) :
    (parseContent env cfg).attempts
      = (StrategyTag.schemaOrg, isDataSufficient (schemaResult env))
          :: ((parseStep2 env cfg (parseFinal1 env)).2.1
              ++ (parseStep3 env (parseStep2 env cfg (parseFinal1 env)).1).2) := by
  unfold parseContent
  cases h : (parseStep3 env (parseStep2 env cfg (parseFinal1 env)).1).1 <;> simp [h]

theorem parseContent_effects (env : ParseEnv) (cfg : SourceCfg) :
    (parseContent env cfg).effects = (parseStep2 env cfg (parseFinal1 env)).2.2 := by
  unfold parseContent
  cases h : (parseStep3 env (parseStep2 env cfg (parseFinal1 env)).1).1 <;> simp [h]

theorem parseContent_result (env : ParseEnv) (cfg : SourceCfg) :
    (parseContent env cfg).result
      = ((parseStep3 env (parseStep2 env cfg (parseFinal1 env)).1).1).getD
          { title := none, text := none, method := "no_data_found" } := by
  unfold parseContent
  cases h : (parseStep3 env (parseStep2 env cfg (parseFinal1 env)).1).1 <;> simp [h]

/-- C6 Parser extraction attempts strategies in the fixed order Schema.org,
configured selectors, one-time selector learning, re-run selectors, general
AI (each possibly skipped), and short-circuits: every attempted strategy
except possibly the final one produced an insufficient result; a normalized
result is sufficient iff both raw title and raw text are non-empty after
trimming. -/
theorem parser_strategy_order (env : ParseEnv) (cfg : SourceCfg) :
    ((parseContent env cfg).attempts.map Prod.fst).Sublist
      [StrategyTag.schemaOrg, StrategyTag.customCss, StrategyTag.llmLearn,
       StrategyTag.customCss, StrategyTag.generalAi]
    ∧ (∀ e ∈ (parseContent env cfg).attempts.dropLast, e.2 = false)
    ∧ (∀ (m : String) (r : RawData),
        isDataSufficient (some (normalizeRaw m r))
          = ((strStrip (r.title.getD "") != "") && (strStrip (r.text.getD "") != ""))) := by
  obtain ⟨hs2tags, hs2drop, hs2insuff, hs2suff⟩ :=
    parseStep2_props env cfg (parseFinal1 env)
  refine ⟨?_, ?_, ?_⟩
  · rw [parseContent_attempts]
    simp only [List.map_cons, List.map_append]
    exact List.Sublist.cons₂ _ (List.Sublist.append hs2tags
      (parseStep3_tags env (parseStep2 env cfg (parseFinal1 env)).1))
  · rw [parseContent_attempts]
    by_cases h2 : isDataSufficient (parseStep2 env cfg (parseFinal1 env)).1
    · -- step 3 is skipped
      rw [parseStep3_suff env _ h2]
      simp only [List.append_nil]
      cases ha2 : (parseStep2 env cfg (parseFinal1 env)).2.1 with
      | nil => simp
      | cons y rest =>
          have hs1 : isDataSufficient (schemaResult env) = false := by
            by_contra hs1
            have hs1' : isDataSufficient (schemaResult env) = true := by simpa using hs1
            have hfin : isDataSufficient (parseFinal1 env) = true := by
              unfold parseFinal1
              rw [hs1']
              simpa using hs1'
            have := hs2suff hfin
            rw [this] at ha2
            simp at ha2
          intro e he
          rw [List.dropLast_cons₂] at he
          rcases List.mem_cons.mp he with he | he
          · subst he
            simpa using hs1
          · refine hs2drop e ?_
            rw [ha2]
            exact he
    · -- step 3 runs: every earlier attempt was insufficient
      have h2' : isDataSufficient (parseStep2 env cfg (parseFinal1 env)).1 = false := by
        simpa using h2
      obtain ⟨hnone, hallfalse⟩ := hs2insuff h2'
      have hs1 : isDataSufficient (schemaResult env) = false := by
        by_contra hs1
        have hs1' : isDataSufficient (schemaResult env) = true := by simpa using hs1
        have hfin : isDataSufficient (parseFinal1 env) = true := by
          unfold parseFinal1
          rw [hs1']
          simpa using hs1'
        have := hs2suff hfin
        rw [this] at h2'
        simp [hfin] at h2'
      rw [parseStep3_insuff env _ h2', ← List.cons_append, List.dropLast_concat]
      intro e he
      rcases List.mem_cons.mp he with he | he
      · subst he
        simpa using hs1
      · exact hallfalse e he
  · intro m r
    have hempty : strStrip "" = "" := rfl
    cases ht : r.title with
    | none =>
        cases htx : r.text with
        | none => simp [normalizeRaw, normField, truthy, ht, htx, hempty]
        | some s =>
            by_cases hs : s = "" <;>
              simp [normalizeRaw, normField, truthy, ht, htx, hs, hempty]
    | some s =>
        by_cases hs : s = ""
        · cases htx : r.text with
          | none =>
              simp [normalizeRaw, normField, truthy, ht, htx, hs, hempty]
          | some s' =>
              by_cases hs' : s' = "" <;>
                simp [normalizeRaw, normField, truthy, ht, htx, hs, hs', hempty]
        · cases htx : r.text with
          | none =>
              simp [normalizeRaw, normField, truthy, ht, htx, hs, hempty]
          | some s' =>
              by_cases hs' : s' = "" <;>
                simp [normalizeRaw, normField, truthy, ht, htx, hs, hs', hempty]

theorem parseStep2_llm (env : ParseEnv) (cfg : SourceCfg) (f1 : Option NormData) :
    (StrategyTag.llmLearn ∈ (parseStep2 env cfg f1).2.1.map Prod.fst →
      isDataSufficient f1 = false
      ∧ noUsableSelectors cfg = true
      ∧ cfg.llmAnalysisPending.getD true = true
      ∧ env.llmCanRun = true
      ∧ ((parseStep2 env cfg f1).2.2
            = [PlannerEff.setLlmFlag false, PlannerEff.saveConfig]
          ∨ ∃ ns, env.llmSelectors = some ns
              ∧ (parseStep2 env cfg f1).2.2
                = [PlannerEff.updateSelectors ns, PlannerEff.setLlmFlag false,
                   PlannerEff.saveConfig]))
    ∧ (∀ ns, env.llmSelectors = some ns → ns.isEmptyFlag = false →
        StrategyTag.llmLearn ∈ (parseStep2 env cfg f1).2.1.map Prod.fst →
        (parseStep2 env cfg f1).2.2
          = [PlannerEff.updateSelectors ns, PlannerEff.setLlmFlag false,
             PlannerEff.saveConfig]
        ∧ (isDataSufficient ((env.customRaw ns).map (normalizeRaw "custom_css")) = true →
            (parseStep2 env cfg f1).1
              = (env.customRaw ns).map (normalizeRaw "custom_css"))) := by
  by_cases h1 : isDataSufficient f1
  · constructor
    · intro hmem
      simp [parseStep2, h1] at hmem
    · intro ns hns hflag hmem
      simp [parseStep2, h1] at hmem
  · have h1' : isDataSufficient f1 = false := by simpa using h1
    by_cases husable : noUsableSelectors cfg = true
    · by_cases hp : cfg.llmAnalysisPending.getD true
      · by_cases hrun : env.llmCanRun
        · cases hns : env.llmSelectors with
          | none =>
              cases hsel : cfg.extractionSelectors with
              | none =>
                  constructor
                  · intro _
                    refine ⟨h1', husable, by simpa using hp, by simpa using hrun, Or.inl ?_⟩
                    simp [parseStep2, noUsableSelectors, h1', hsel, hp, hrun, hns]
                  · intro ns hns' _ _
                    exact absurd hns' (by simp)
              | some sel =>
                  have hempty : sel.isEmptyFlag = true := by
                    have := husable
                    simp [noUsableSelectors, hsel] at this
                    exact this
                  constructor
                  · intro _
                    refine ⟨h1', husable, by simpa using hp, by simpa using hrun, Or.inl ?_⟩
                    simp [parseStep2, noUsableSelectors, h1', hsel, hempty, hp, hrun, hns]
                  · intro ns hns' _ _
                    exact absurd hns' (by simp)
          | some ns =>
              by_cases hflag : ns.isEmptyFlag
              · cases hsel : cfg.extractionSelectors with
                | none =>
                    constructor
                    · intro _
                      refine ⟨h1', husable, by simpa using hp, by simpa using hrun,
                        Or.inr ⟨ns, rfl, ?_⟩⟩
                      simp [parseStep2, noUsableSelectors, h1', hsel, hp, hrun, hns, hflag]
                    · intro ns' hns' hflag' _
                      injection hns' with hns'
                      subst hns'
                      rw [hflag] at hflag'
                      cases hflag'
                | some sel =>
                    have hempty : sel.isEmptyFlag = true := by
                      have := husable
                      simp [noUsableSelectors, hsel] at this
                      exact this
                    constructor
                    · intro _
                      refine ⟨h1', husable, by simpa using hp, by simpa using hrun,
                        Or.inr ⟨ns, rfl, ?_⟩⟩
                      simp [parseStep2, noUsableSelectors, h1', hsel, hempty, hp, hrun,
                        hns, hflag]
                    · intro ns' hns' hflag' _
                      injection hns' with hns'
                      subst hns'
                      rw [hflag] at hflag'
                      cases hflag'
              · have hflag' : ns.isEmptyFlag = false := by simpa using hflag
                cases hsel : cfg.extractionSelectors with
                | none =>
                    constructor
                    · intro _
                      refine ⟨h1', husable, by simpa using hp, by simpa using hrun,
                        Or.inr ⟨ns, rfl, ?_⟩⟩
                      by_cases hllm : isDataSufficient
                          ((env.customRaw ns).map (normalizeRaw "custom_css")) <;>
                        simp [parseStep2, noUsableSelectors, h1', hsel, hp, hrun, hns,
                          hflag', hllm]
                    · intro ns' hns' _ _
                      injection hns' with hns'
                      subst hns'
                      constructor
                      · by_cases hllm : isDataSufficient
                            ((env.customRaw ns).map (normalizeRaw "custom_css")) <;>
                          simp [parseStep2, noUsableSelectors, h1', hsel, hp, hrun, hns,
                            hflag', hllm]
                      · intro hllm
                        simp [parseStep2, noUsableSelectors, h1', hsel, hp, hrun, hns,
                          hflag', hllm]
                | some sel =>
                    have hempty : sel.isEmptyFlag = true := by
                      have := husable
                      simp [noUsableSelectors, hsel] at this
                      exact this
                    constructor
                    · intro _
                      refine ⟨h1', husable, by simpa using hp, by simpa using hrun,
                        Or.inr ⟨ns, rfl, ?_⟩⟩
                      by_cases hllm : isDataSufficient
                          ((env.customRaw ns).map (normalizeRaw "custom_css")) <;>
                        simp [parseStep2, noUsableSelectors, h1', hsel, hempty, hp, hrun,
                          hns, hflag', hllm]
                    · intro ns' hns' _ _
                      injection hns' with hns'
                      subst hns'
                      constructor
                      · by_cases hllm : isDataSufficient
                            ((env.customRaw ns).map (normalizeRaw "custom_css")) <;>
                          simp [parseStep2, noUsableSelectors, h1', hsel, hempty, hp,
                            hrun, hns, hflag', hllm]
                      · intro hllm
                        simp [parseStep2, noUsableSelectors, h1', hsel, hempty, hp, hrun,
                          hns, hflag', hllm]
        · have hrun' : env.llmCanRun = false := by simpa using hrun
          constructor
          · intro hmem
            exfalso
            cases hsel : cfg.extractionSelectors with
            | none =>
                simp [parseStep2, noUsableSelectors, h1', hsel, hp, hrun'] at hmem
            | some sel =>
                by_cases hempty : sel.isEmptyFlag
                · simp [parseStep2, noUsableSelectors, h1', hsel, hempty, hp, hrun'] at hmem
                · by_cases hc : isDataSufficient
                      ((env.customRaw sel).map (normalizeRaw "custom_css")) <;>
                    simp [parseStep2, noUsableSelectors, h1', hsel, hempty, hp, hrun',
                      hc] at hmem
          · intro ns hns' hflag' hmem
            exfalso
            cases hsel : cfg.extractionSelectors with
            | none =>
                simp [parseStep2, noUsableSelectors, h1', hsel, hp, hrun'] at hmem
            | some sel =>
                by_cases hempty : sel.isEmptyFlag
                · simp [parseStep2, noUsableSelectors, h1', hsel, hempty, hp, hrun'] at hmem
                · by_cases hc : isDataSufficient
                      ((env.customRaw sel).map (normalizeRaw "custom_css")) <;>
                    simp [parseStep2, noUsableSelectors, h1', hsel, hempty, hp, hrun',
                      hc] at hmem
      · have hp' : cfg.llmAnalysisPending.getD true = false := by simpa using hp
        have hnomem : StrategyTag.llmLearn ∉ (parseStep2 env cfg f1).2.1.map Prod.fst := by
          cases hsel : cfg.extractionSelectors with
          | none =>
              simp [parseStep2, noUsableSelectors, h1', hsel, hp']
          | some sel =>
              by_cases hempty : sel.isEmptyFlag
              · simp [parseStep2, noUsableSelectors, h1', hsel, hempty, hp']
              · by_cases hc : isDataSufficient
                    ((env.customRaw sel).map (normalizeRaw "custom_css")) <;>
                  simp [parseStep2, noUsableSelectors, h1', hsel, hempty, hp', hc]
        exact ⟨fun hmem => absurd hmem hnomem, fun _ _ _ hmem => absurd hmem hnomem⟩
    · have husable' : noUsableSelectors cfg = false := by simpa using husable
      obtain ⟨sel, hsel, hempty⟩ : ∃ sel, cfg.extractionSelectors = some sel
          ∧ sel.isEmptyFlag = false := by
        cases hsel : cfg.extractionSelectors with
        | none => simp [noUsableSelectors, hsel] at husable'
        | some sel =>
            refine ⟨sel, rfl, ?_⟩
            simpa [noUsableSelectors, hsel] using husable'
      have hnomem : StrategyTag.llmLearn ∉ (parseStep2 env cfg f1).2.1.map Prod.fst := by
        by_cases hc : isDataSufficient
            ((env.customRaw sel).map (normalizeRaw "custom_css")) <;>
          simp [parseStep2, noUsableSelectors, h1', hsel, hempty, hc]
      exact ⟨fun hmem => absurd hmem hnomem, fun _ _ _ hmem => absurd hmem hnomem⟩

/-- C6 witness at a concrete run (Schema.org insufficient, general AI
sufficient): the attempt order, the insufficiency of the non-final attempt,
and the sufficiency characterization at a concrete raw record. -/
theorem parser_strategy_order_witness :
    ((parseContent
        { schemaRaw := none, customRaw := fun _ => none, llmCanRun := false,
          llmSelectors := none, generalAiRaw := some ⟨some "T", some "B"⟩ }
        { extractionSelectors := none,
          llmAnalysisPending := some false }).attempts.map Prod.fst).Sublist
      [StrategyTag.schemaOrg, StrategyTag.customCss, StrategyTag.llmLearn,
       StrategyTag.customCss, StrategyTag.generalAi]
    ∧ ((StrategyTag.schemaOrg, false) : StrategyTag × Bool).2 = false
    ∧ isDataSufficient (some (normalizeRaw "general_ai" ⟨some " T ", some ""⟩))
        = ((strStrip ((some " T " : Option String).getD "") != "")
            && (strStrip ((some "" : Option String).getD "") != "")) :=
  ⟨(parser_strategy_order _ _).1,
   (parser_strategy_order
      { schemaRaw := none, customRaw := fun _ => none, llmCanRun := false,
        llmSelectors := none, generalAiRaw := some ⟨some "T", some "B"⟩ }
      { extractionSelectors := none, llmAnalysisPending := some false }).2.1
     (StrategyTag.schemaOrg, false) (by decide),
   (parser_strategy_order
      { schemaRaw := none, customRaw := fun _ => none, llmCanRun := false,
        llmSelectors := none, generalAiRaw := some ⟨some "T", some "B"⟩ }
      { extractionSelectors := none, llmAnalysisPending := some false }).2.2
     "general_ai" ⟨some " T ", some ""⟩⟩

/-- Modelled from the spec: `Planner.update_source_extraction_selectors` and
`Planner.set_llm_analysis_flag` are not implemented under the repository's
source tree (only their call sites in `parser.py`/`main.py` and test mocks
exist); per the spec they store the proposed selectors on the SourceConfig
and set its `llm_analysis_pending` flag, while `save_config` persists the
registry.  Applying the Planner calls a `parse_content` run emitted yields
the updated config and whether it was persisted. -/
def applyPlannerEffs (cfg : SourceCfg) (effs : List PlannerEff) : SourceCfg × Bool :=
  effs.foldl
    (fun acc e =>
      match e with
      | PlannerEff.updateSelectors s => ({ acc.1 with extractionSelectors := some s }, acc.2)
      | PlannerEff.setLlmFlag b => ({ acc.1 with llmAnalysisPending := some b }, acc.2)
      | PlannerEff.saveConfig => (acc.1, true))
    (cfg, false)

/-- C7 The one-time selector-learning step runs only when
`llm_analysis_pending` is (effectively) true and no usable selectors exist;
whenever it runs, the flag is cleared to false and the configuration is
persisted regardless of the learning outcome; on success the proposed
selectors are stored on the SourceConfig and the selector strategy is re-run
with them (its sufficient result becoming the final one). -/
theorem parser_llm_learning (env : ParseEnv) (cfg : SourceCfg)
    (hran : StrategyTag.llmLearn ∈ (parseContent env cfg).attempts.map Prod.fst) :
    (cfg.llmAnalysisPending.getD true = true ∧ noUsableSelectors cfg = true)
    ∧ (applyPlannerEffs cfg (parseContent env cfg).effects).1.llmAnalysisPending
        = some false
    ∧ (applyPlannerEffs cfg (parseContent env cfg).effects).2 = true
    ∧ (∀ ns, env.llmSelectors = some ns → ns.isEmptyFlag = false →
        (applyPlannerEffs cfg (parseContent env cfg).effects).1.extractionSelectors
            = some ns
        ∧ (isDataSufficient ((env.customRaw ns).map (normalizeRaw "custom_css")) = true →
            (parseContent env cfg).result
              = ((env.customRaw ns).map (normalizeRaw "custom_css")).getD
                  ⟨none, none, "no_data_found"⟩)) := by
  have hmem2 : StrategyTag.llmLearn
      ∈ (parseStep2 env cfg (parseFinal1 env)).2.1.map Prod.fst := by
    rw [parseContent_attempts] at hran
    simp only [List.map_cons, List.map_append, List.mem_cons, List.mem_append] at hran
    rcases hran with h | h | h
    · exact absurd h (by decide)
    · exact h
    · have := (parseStep3_tags env (parseStep2 env cfg (parseFinal1 env)).1).subset h
      simp at this
  obtain ⟨hmain, hsuccess⟩ := parseStep2_llm env cfg (parseFinal1 env)
  obtain ⟨hf1, husable, hp, hrun, heffs⟩ := hmain hmem2
  rw [parseContent_effects]
  refine ⟨⟨hp, husable⟩, ?_, ?_, ?_⟩
  · rcases heffs with heq | ⟨ns, hns, heq⟩ <;> rw [heq] <;> simp [applyPlannerEffs]
  · rcases heffs with heq | ⟨ns, hns, heq⟩ <;> rw [heq] <;> simp [applyPlannerEffs]
  · intro ns hns hflag
    obtain ⟨heq, hres⟩ := hsuccess ns hns hflag hmem2
    constructor
    · rw [heq]
      simp [applyPlannerEffs]
    · intro hsuf
      have h31 := parseStep3_suff env (parseStep2 env cfg (parseFinal1 env)).1
        (by rw [hres hsuf]; exact hsuf)
      rw [parseContent_result, h31]
      simp [hres hsuf]

/-- C7 witness: a concrete source with no selectors and the learning flag
set, where the proposed selectors extract sufficient data. -/
theorem parser_llm_learning_witness :
    (let env : ParseEnv :=
      { schemaRaw := none,
        customRaw := fun s => if s.key = 7 then some ⟨some "T", some "B"⟩ else none,
        llmCanRun := true, llmSelectors := some ⟨7, false⟩, generalAiRaw := none };
     let cfg : SourceCfg :=
      { extractionSelectors := none, llmAnalysisPending := some true };
     (cfg.llmAnalysisPending.getD true = true ∧ noUsableSelectors cfg = true)
     ∧ (applyPlannerEffs cfg (parseContent env cfg).effects).1.llmAnalysisPending
         = some false
     ∧ (applyPlannerEffs cfg (parseContent env cfg).effects).2 = true) := by
  have h := parser_llm_learning
    { schemaRaw := none,
      customRaw := fun s => if s.key = 7 then some ⟨some "T", some "B"⟩ else none,
      llmCanRun := true, llmSelectors := some ⟨7, false⟩, generalAiRaw := none }
    { extractionSelectors := none, llmAnalysisPending := some true }
    (by decide)
  exact ⟨h.1, h.2.1, h.2.2.1⟩

/-- C8 counterexample: when the general-AI strategy returns a record whose
fields all normalize to empty (for example crawl4ai returning empty text
with only an unparsable date in its metadata), `parse_content` returns an
all-empty result whose `extraction_method` is `general_ai`, not
`no_data_found`. -/
theorem parser_no_data_found_counterexample :
    (let env : ParseEnv :=
      { schemaRaw := none, customRaw := fun _ => none, llmCanRun := false,
        llmSelectors := none, generalAiRaw := some ⟨none, some ""⟩ };
     let cfg : SourceCfg :=
      { extractionSelectors := none, llmAnalysisPending := some false };
     (parseContent env cfg).result.title = none
     ∧ (parseContent env cfg).result.text = none
     ∧ (parseContent env cfg).result.method = "general_ai"
     ∧ "general_ai" ≠ "no_data_found") := by
  exact ⟨rfl, rfl, rfl, by decide⟩

/-- C8 amended: `parse_content` is total (the embedding returns a result for
every input), and an insufficient returned result carries
`extraction_method = "no_data_found"` when no strategy produced any partial
record, while an all-empty PARTIAL general-AI record keeps method
`general_ai`. -/
theorem parser_total_no_data_found_amended (env : ParseEnv) (cfg : SourceCfg)
    (hinsuf : isDataSufficient (some (parseContent env cfg).result) = false) :
    (parseContent env cfg).result.method = "no_data_found"
    ∨ ((parseContent env cfg).result.method = "general_ai"
        ∧ env.generalAiRaw.isSome = true) := by
  obtain ⟨hs2tags, hs2drop, hs2insuff, hs2suff⟩ :=
    parseStep2_props env cfg (parseFinal1 env)
  by_cases h2 : isDataSufficient (parseStep2 env cfg (parseFinal1 env)).1
  · exfalso
    have h31 := parseStep3_suff env (parseStep2 env cfg (parseFinal1 env)).1 h2
    have hres := parseContent_result env cfg
    rw [h31] at hres
    cases hf2 : (parseStep2 env cfg (parseFinal1 env)).1 with
    | none => rw [hf2] at h2; simp at h2
    | some r =>
        rw [hf2] at hres h2
        simp only [Option.getD_some] at hres
        rw [hres] at hinsuf
        rw [h2] at hinsuf
        cases hinsuf
  · have h2' : isDataSufficient (parseStep2 env cfg (parseFinal1 env)).1 = false := by
      simpa using h2
    obtain ⟨hnone, -⟩ := hs2insuff h2'
    have hres := parseContent_result env cfg
    rw [hnone] at hres
    rcases parseStep3_result_none env with h3 | h3 | ⟨raw, hraw, h3⟩
    · left
      rw [h3] at hres
      rw [hres]
      rfl
    · exfalso
      cases h31 : (parseStep3 env (none : Option NormData)).1 with
      | none => rw [h31] at h3; simp at h3
      | some r =>
          rw [h31] at h3 hres
          simp only [Option.getD_some] at hres
          rw [hres] at hinsuf
          rw [h3] at hinsuf
          cases hinsuf
    · right
      rw [h3] at hres
      simp only [Option.getD_some] at hres
      rw [hres, hraw]
      exact ⟨rfl, rfl⟩

/-- C8 amended witness at the counterexample environment: the all-empty
partial general-AI result keeps its method and the oracle was present. -/
theorem parser_total_no_data_found_amended_witness :
    ((parseContent
        { schemaRaw := none, customRaw := fun _ => none, llmCanRun := false,
          llmSelectors := none, generalAiRaw := some ⟨none, some ""⟩ }
        { extractionSelectors := none, llmAnalysisPending := some false }).result.method
        = "no_data_found")
    ∨ ((parseContent
        { schemaRaw := none, customRaw := fun _ => none, llmCanRun := false,
          llmSelectors := none, generalAiRaw := some ⟨none, some ""⟩ }
        { extractionSelectors := none, llmAnalysisPending := some false }).result.method
        = "general_ai"
      ∧ (some (⟨none, some ""⟩ : RawData) : Option RawData).isSome = true) :=
  parser_total_no_data_found_amended _ _ (by decide)

/-! ### Planner aggregation and the main task loop
(`news_scrapper/planner/planner.py`, `news_scrapper/main.py`) -/

/-- Outcome of one source's RSS-discovery step (the homepage fetch and link
scan inside `discover_rss_feed_for_source`): a feed link was found — in
which case the subsequent `update_source_rss_feed` call may raise (under the
source tree that Planner method is not defined, so the call raises
`AttributeError`) — or nothing was found, which covers fetch failures and
feedless pages that the step handles internally by returning `None`. -/
inductive RssStepOutcome
  | foundFeed (feed : String) (updateRaises : Bool)
  | nothingFound
  deriving DecidableEq

/-- A configured source as seen by `discover_all_rss_feeds`, together with
the oracle outcome of its discovery step for this cycle. -/
structure SourceEntry where
  name : Option String
  rssFeed : Option String
  discovery : RssStepOutcome
  deriving DecidableEq

/-- `Planner.discover_rss_feed_for_source`: returns the feed discovered (or
`none`); an exception raised while updating the source's configuration
propagates to the caller (there is no try/except in this method). -/
def discoverRssFeedForSource (src : SourceEntry) : Except String (Option String) :=
  if truthy src.rssFeed then Except.ok src.rssFeed
  else
    match src.discovery with
    | RssStepOutcome.foundFeed feed raises =>
        if raises then Except.error "update_source_rss_feed"
        else Except.ok (some feed)
    | RssStepOutcome.nothingFound => Except.ok none

/-- Whether a source's iteration in `discover_all_rss_feeds` raises. -/
def stepRaises (src : SourceEntry) : Bool :=
  (truthy src.name && !(truthy src.rssFeed))
    && (match discoverRssFeedForSource src with
        | Except.error _ => true
        | Except.ok _ => false)

/-- The loop of `Planner.discover_all_rss_feeds`: iterate the sources,
running discovery for each named feedless source; an exception aborts the
loop (returned as the third component), otherwise count the completed
iterations and track `any_change`. -/
def discoverAllAux : List SourceEntry → Nat → Bool → Nat × Bool × Option String
  | [], n, c => (n, c, none)
  | src :: rest, n, c =>
      if truthy src.name && !(truthy src.rssFeed) then
        match discoverRssFeedForSource src with
        | Except.error e => (n, c, some e)
        | Except.ok r => discoverAllAux rest (n + 1) (c || r.isSome)
      else discoverAllAux rest (n + 1) c

/-- Result of one `discover_all_rss_feeds` pass. -/
structure DiscoverAllResult where
  completedSources : Nat
  anyChange : Bool
  escapedExn : Option String
  savedConfig : Bool
  deriving DecidableEq

/-- `Planner.discover_all_rss_feeds` (with `persist_changes=True`): the
per-source loop followed by a `save_config` when anything changed — reached
only when no exception escaped the loop. -/
def discoverAllRssFeeds (sources : List SourceEntry) : DiscoverAllResult :=
  let t := discoverAllAux sources 0 false
  { completedSources := t.1, anyChange := t.2.1, escapedExn := t.2.2,
    savedConfig := t.2.1 && t.2.2.isNone }

/-- The per-task loop of `main.py`: each task runs inside its own
try/except, whose handler only logs; every task executes regardless of
earlier tasks' exceptions (each task's escaped exception, if any, is the
oracle input). -/
def mainTaskLoop : List (Option String) → Nat × List String
  | [] => (0, [])
  | r :: rest =>
      let t := mainTaskLoop rest
      (t.1 + 1, (match r with | some e => [e] | none => []) ++ t.2)

theorem discoverAllAux_clean (l : List SourceEntry) :
    ∀ (n : Nat) (c : Bool), (∀ src ∈ l, stepRaises src = false) →
      (discoverAllAux l n c).1 = n + l.length ∧ (discoverAllAux l n c).2.2 = none := by
  induction l with
  | nil => intro n c _; simp [discoverAllAux]
  | cons src rest ih =>
      intro n c hclean
      have hsrc : stepRaises src = false := hclean src (List.mem_cons_self _ _)
      have hrest : ∀ s ∈ rest, stepRaises s = false :=
        fun s hs => hclean s (List.mem_cons_of_mem _ hs)
      by_cases hguard : (truthy src.name && !(truthy src.rssFeed)) = true
      · cases hstep : discoverRssFeedForSource src with
        | error e =>
            exfalso
            rw [stepRaises, hguard, hstep] at hsrc
            simp at hsrc
        | ok r =>
            have := ih (n + 1) (c || r.isSome) hrest
            simp only [discoverAllAux, hguard, if_true, hstep]
            constructor
            · rw [this.1]
              simp [List.length_cons]
              omega
            · exact this.2
      · have hguard' : (truthy src.name && !(truthy src.rssFeed)) = false := by
          simpa using hguard
        have := ih (n + 1) c hrest
        simp only [discoverAllAux, hguard', Bool.false_eq_true, if_false]
        constructor
        · rw [this.1]
          simp [List.length_cons]
          omega
        · exact this.2

theorem discoverAllAux_raise (pre : List SourceEntry) :
    ∀ (src : SourceEntry) (post : List SourceEntry) (n : Nat) (c : Bool),
      (∀ s ∈ pre, stepRaises s = false) → stepRaises src = true →
      (discoverAllAux (pre ++ src :: post) n c).2.2.isSome = true
      ∧ (discoverAllAux (pre ++ src :: post) n c).1 = n + pre.length := by
  induction pre with
  | nil =>
      intro src post n c _ hraise
      have hraise' := hraise
      simp only [stepRaises, Bool.and_eq_true] at hraise'
      have hguard : (truthy src.name && !(truthy src.rssFeed)) = true := by
        rcases hraise' with ⟨⟨ha, hb⟩, -⟩
        simp [ha, hb]
      cases hstep : discoverRssFeedForSource src with
      | error e => simp [discoverAllAux, hguard, hstep]
      | ok r =>
          exfalso
          rw [stepRaises, hguard, hstep] at hraise
          simp at hraise
  | cons s0 rest ih =>
      intro src post n c hclean hraise
      have hs0 : stepRaises s0 = false := hclean s0 (List.mem_cons_self _ _)
      have hrest : ∀ s ∈ rest, stepRaises s = false :=
        fun s hs => hclean s (List.mem_cons_of_mem _ hs)
      by_cases hguard : (truthy s0.name && !(truthy s0.rssFeed)) = true
      · cases hstep : discoverRssFeedForSource s0 with
        | error e =>
            exfalso
            rw [stepRaises, hguard, hstep] at hs0
            simp at hs0
        | ok r =>
            have := ih src post (n + 1) (c || r.isSome) hrest hraise
            simp only [List.cons_append, discoverAllAux, hguard, if_true, hstep]
            constructor
            · exact this.1
            · show (discoverAllAux (rest ++ src :: post) (n + 1) (c || r.isSome)).1
                  = n + (s0 :: rest).length
              rw [this.2]
              simp [List.length_cons]
              omega
      · have hguard' : (truthy s0.name && !(truthy s0.rssFeed)) = false := by
          simpa using hguard
        have := ih src post (n + 1) c hrest hraise
        simp only [List.cons_append, discoverAllAux, hguard', Bool.false_eq_true, if_false]
        constructor
        · exact this.1
        · show (discoverAllAux (rest ++ src :: post) (n + 1) c).1
              = n + (s0 :: rest).length
          rw [this.2]
          simp [List.length_cons]
          omega

/-- C9 counterexample: when source `a`'s discovery step raises (as the call
to the missing `update_source_rss_feed` does whenever a feed link is found),
the whole multi-source pass aborts: sibling `b` is never processed and the
exception escapes `discover_all_rss_feeds`, contradicting the claimed
per-source catch. -/
theorem planner_discovery_abort_counterexample :
    (discoverAllRssFeeds
        [⟨some "a", none, RssStepOutcome.foundFeed "http://a/feed" true⟩,
         ⟨some "b", none, RssStepOutcome.foundFeed "http://b/feed" false⟩]).escapedExn
      = some "update_source_rss_feed"
    ∧ (discoverAllRssFeeds
        [⟨some "a", none, RssStepOutcome.foundFeed "http://a/feed" true⟩,
         ⟨some "b", none, RssStepOutcome.foundFeed "http://b/feed" false⟩]).completedSources
      = 0 := by
  constructor <;> rfl

/-- C9 amended: per-source failures that the discovery step reports by
returning nothing (fetch errors, malformed/feedless pages) are absorbed —
the pass completes every source; but an EXCEPTION in one source's step
(e.g. while updating its configuration) aborts the remaining siblings of
that pass, and it is caught one level up, per task, in `main.py`'s loop, so
the overall run still continues (every task of the run executes). -/
theorem planner_discovery_amended :
    (∀ sources : List SourceEntry,
        (∀ src ∈ sources, stepRaises src = false) →
        (discoverAllRssFeeds sources).escapedExn = none
        ∧ (discoverAllRssFeeds sources).completedSources = sources.length)
    ∧ (∀ (pre : List SourceEntry) (src : SourceEntry) (post : List SourceEntry),
        (∀ s ∈ pre, stepRaises s = false) → stepRaises src = true →
        (discoverAllRssFeeds (pre ++ src :: post)).escapedExn.isSome = true
        ∧ (discoverAllRssFeeds (pre ++ src :: post)).completedSources = pre.length)
    ∧ (∀ tasks : List (Option String), (mainTaskLoop tasks).1 = tasks.length) := by
  refine ⟨?_, ?_, ?_⟩
  · intro sources hclean
    have := discoverAllAux_clean sources 0 false hclean
    exact ⟨by simp [discoverAllRssFeeds, this.2], by simp [discoverAllRssFeeds, this.1]⟩
  · intro pre src post hclean hraise
    have := discoverAllAux_raise pre src post 0 false hclean hraise
    exact ⟨by simp [discoverAllRssFeeds, this.1], by simp [discoverAllRssFeeds, this.2]⟩
  · intro tasks
    induction tasks with
    | nil => rfl
    | cons r rest ih => simp [mainTaskLoop, ih]

/-- C9 amended witness: a clean two-source pass completes both sources; a
pass whose second source raises completes only the first; the main loop runs
all tasks even when one reports an exception. -/
theorem planner_discovery_amended_witness :
    ((discoverAllRssFeeds
        [⟨some "a", none, RssStepOutcome.nothingFound⟩,
         ⟨some "b", some "http://b/feed", RssStepOutcome.nothingFound⟩]).escapedExn = none
      ∧ (discoverAllRssFeeds
          [⟨some "a", none, RssStepOutcome.nothingFound⟩,
           ⟨some "b", some "http://b/feed", RssStepOutcome.nothingFound⟩]).completedSources
        = 2)
    ∧ ((discoverAllRssFeeds
          [⟨some "a", none, RssStepOutcome.nothingFound⟩,
           ⟨some "x", none, RssStepOutcome.foundFeed "http://x/feed" true⟩]).escapedExn.isSome
          = true
      ∧ (discoverAllRssFeeds
          [⟨some "a", none, RssStepOutcome.nothingFound⟩,
           ⟨some "x", none, RssStepOutcome.foundFeed "http://x/feed" true⟩]).completedSources
        = 1)
    ∧ (mainTaskLoop [some "update_source_rss_feed", none]).1 = 2 := by
  refine ⟨?_, ?_, planner_discovery_amended.2.2 [some "update_source_rss_feed", none]⟩
  · have h := planner_discovery_amended.1
      [⟨some "a", none, RssStepOutcome.nothingFound⟩,
       ⟨some "b", some "http://b/feed", RssStepOutcome.nothingFound⟩] (by decide)
    exact ⟨h.1, h.2⟩
  · have h := planner_discovery_amended.2.1
      [⟨some "a", none, RssStepOutcome.nothingFound⟩]
      ⟨some "x", none, RssStepOutcome.foundFeed "http://x/feed" true⟩ [] (by decide) (by decide)
    exact ⟨h.1, h.2⟩

end NewsScrapper
